import Mathlib

/-!
Verification development for the HumanScript transpiler front-end
(lexer, recursive-descent parser, semantic analyzer, code generator).

The C++ sources are shallowly embedded: source text is a `List Char`,
`std::string` values are `List Char`, token streams are `List Token`,
fallible stages return `Except`.  The C++ scanner addresses the source
through `peek` / `peek_next` / `advance` with a `'\0'` sentinel at
end-of-input; the embedding models the not-yet-consumed suffix as a
`List Char`, and the places where the C++ code compares a character
against `'\0'` (so that a literal NUL byte inside the source behaves
like end-of-input) are translated with an explicit comparison against
`nulChar`.  Loops whose termination is only by progress through the
input carry an explicit fuel argument; fuel `length + 1` always
suffices because every loop iteration consumes at least one character
(resp. token), and the fuel-exhaustion branch is unreachable for the
wrappers below.  Error messages printed via exceptions are modelled as
structured error values carrying the same data as the C++ message.
-/

namespace HumanScript

/-- Token kinds, from lexer.h (`enum class TokenType`), including the
members used by the lexer implementation for `if`/`else`/braces. -/
inductive TokenType where
  | KEYWORD_NUMBER
  | KEYWORD_LNUMBER
  | KEYWORD_TEXT
  | KEYWORD_LOGIC
  | KEYWORD_RIEL
  | KEYWORD_SAYS
  | KEYWORD_TRUE
  | KEYWORD_FALSE
  | KEYWORD_USE
  | KEYWORD_IF
  | KEYWORD_ELSE
  | LT
  | GT
  | DOT
  | SLASH
  | IDENTIFIER
  | INTEGER_LITERAL
  | DOUBLE_LITERAL
  | STRING_LITERAL
  | COLON_EQUALS
  | QUESTION_EQUALS
  | PLUS
  | SEMICOLON
  | LPAREN
  | RPAREN
  | LBRACE
  | RBRACE
  | END_OF_FILE
  | UNKNOWN
  deriving DecidableEq, Repr

/-- The token payload
`std::variant<std::monostate, int, long long, double, std::string, bool>`.
The `double` alternative is represented symbolically by the literal's
source text (no claim in this development depends on floating-point
arithmetic; `std::stod` is injective on the literal texts that occur,
and the payload is otherwise only carried around). -/
inductive TokenValue where
  | none
  | int (n : Int)
  | longlong (n : Int)
  | double (raw : List Char)
  | str (s : List Char)
  | bool (b : Bool)
  deriving DecidableEq, Repr

/-- A classified lexeme: kind, raw text, optional literal payload. -/
structure Token where
  type : TokenType
  text : List Char
  value : TokenValue
  deriving DecidableEq, Repr

/-- `Token(TokenType::END_OF_FILE, "")`. -/
def eofToken : Token := ⟨TokenType.END_OF_FILE, [], TokenValue.none⟩

/-- The `'\0'` sentinel character the C++ scanner compares against. -/
def nulChar : Char := Char.ofNat 0

def lbraceChar : Char := Char.ofNat 123

def rbraceChar : Char := Char.ofNat 125

/-- C `isspace` in the default locale: space and the 0x09–0x0D controls. -/
def isSpaceC (c : Char) : Bool := c.toNat = 32 ∨ (9 ≤ c.toNat ∧ c.toNat ≤ 13)

/-- C `isdigit`. -/
def isDigitC (c : Char) : Bool := 48 ≤ c.toNat ∧ c.toNat ≤ 57

/-- C `isalpha` in the default locale (ASCII letters). -/
def isAlphaC (c : Char) : Bool :=
  (65 ≤ c.toNat ∧ c.toNat ≤ 90) ∨ (97 ≤ c.toNat ∧ c.toNat ≤ 122)

/-- C `isalnum`. -/
def isAlnumC (c : Char) : Bool := isAlphaC c ∨ isDigitC c

/-- `isdigit(peek_next())`: whether the head of the remaining input (the
character after the one being examined) is a digit. -/
def headIsDigit : List Char → Bool
  | [] => false
  | d :: _ => isDigitC d

/-- `Lexer::skip_whitespace_and_comments`.  The flag records whether the
scanner is inside a `//` comment: the C++ outer loop consumes
whitespace, and on seeing `//` runs an inner loop consuming up to (but
not including) the next `'\n'` or `'\0'`; the terminating `'\n'` is
then consumed as whitespace by the outer loop, which is what the
`true` branch below does in one step. -/
def skipWSAux : Bool → List Char → List Char
  | _, [] => []
  | true, c :: cs =>
    if c = '\n' then skipWSAux false cs
    else if c = nulChar then c :: cs
    else skipWSAux true cs
  | false, c :: cs =>
    if isSpaceC c then skipWSAux false cs
    else if c = '/' ∧ cs.head? = some '/' then skipWSAux true cs
    else c :: cs

def skip_whitespace_and_comments (s : List Char) : List Char := skipWSAux false s

/-- The keyword table in `Lexer::make_identifier_or_keyword`. -/
def keywordLookup (s : List Char) : Option TokenType :=
  if s = "number".toList then some TokenType.KEYWORD_NUMBER
  else if s = "lnumber".toList then some TokenType.KEYWORD_LNUMBER
  else if s = "text".toList then some TokenType.KEYWORD_TEXT
  else if s = "logic".toList then some TokenType.KEYWORD_LOGIC
  else if s = "riel".toList then some TokenType.KEYWORD_RIEL
  else if s = "says".toList then some TokenType.KEYWORD_SAYS
  else if s = "true".toList then some TokenType.KEYWORD_TRUE
  else if s = "false".toList then some TokenType.KEYWORD_FALSE
  else if s = "use".toList then some TokenType.KEYWORD_USE
  else if s = "if".toList then some TokenType.KEYWORD_IF
  else if s = "else".toList then some TokenType.KEYWORD_ELSE
  else Option.none

/-- `Lexer::make_identifier_or_keyword`. -/
def make_identifier_or_keyword (t : List Char) : Token :=
  match keywordLookup t with
  | some k =>
    if t = "true".toList then ⟨k, t, TokenValue.bool true⟩
    else if t = "false".toList then ⟨k, t, TokenValue.bool false⟩
    else ⟨k, t, TokenValue.none⟩
  | Option.none => ⟨TokenType.IDENTIFIER, t, TokenValue.str t⟩

/-- The identifier scan loop (`while isalnum(peek) || peek == '_'`). -/
def scanIdent : List Char → List Char × List Char
  | [] => ([], [])
  | c :: cs =>
    if isAlnumC c ∨ c = '_' then
      let p := scanIdent cs
      (c :: p.1, p.2)
    else ([], c :: cs)

/-- The number scan loop of `Lexer::make_number`: digits, plus at most
one `'.'` that must be immediately followed by a digit.  The `Bool`
argument and result is the `is_double` flag. -/
def scanNum : Bool → List Char → List Char × Bool × List Char
  | isd, [] => ([], isd, [])
  | isd, c :: cs =>
    if isDigitC c then
      let p := scanNum isd cs
      (c :: p.1, p.2.1, p.2.2)
    else if c = '.' ∧ isd = false ∧ headIsDigit cs then
      let p := scanNum true cs
      (c :: p.1, p.2.1, p.2.2)
    else ([], isd, c :: cs)

/-- Digit string to `Nat` (the value `std::stoi`/`std::stoll` parse). -/
def digitsToNat (s : List Char) : Nat := s.foldl (fun a c => a * 10 + (c.toNat - 48)) 0

/-- `Lexer::make_number`: a double literal keeps its text as symbolic
payload; an integer literal is parsed with `std::stoi`, falling back to
`std::stoll` on overflow, and to `0LL` when even that overflows. -/
def make_number (s : List Char) : Token × List Char :=
  let p := scanNum false s
  let numStr := p.1
  let isDouble := p.2.1
  let rest := p.2.2
  if isDouble then (⟨TokenType.DOUBLE_LITERAL, numStr, TokenValue.double numStr⟩, rest)
  else
    let n := digitsToNat numStr
    if n ≤ 2147483647 then (⟨TokenType.INTEGER_LITERAL, numStr, TokenValue.int (Int.ofNat n)⟩, rest)
    else if n ≤ 9223372036854775807 then
      (⟨TokenType.INTEGER_LITERAL, numStr, TokenValue.longlong (Int.ofNat n)⟩, rest)
    else (⟨TokenType.INTEGER_LITERAL, numStr, TokenValue.longlong 0⟩, rest)

/-- The body loop of `Lexer::make_string_literal`
(`while peek != '"' && peek != '\0'`), translating the escape
sequences `\n \t \" \\` and copying the character after an unrecognized
escape through literally.  A backslash at end-of-input appends the
`'\0'` sentinel `peek()` returned, exactly as the C++ code does. -/
def scanStr : List Char → List Char × List Char
  | [] => ([], [])
  | c :: cs =>
    if c = '"' ∨ c = nulChar then ([], c :: cs)
    else if c = '\\' then
      match cs with
      | [] => ([nulChar], [])
      | d :: ds =>
        let e :=
          if d = 'n' then '\n'
          else if d = 't' then '\t'
          else if d = '"' then '"'
          else if d = '\\' then '\\'
          else d
        let p := scanStr ds
        (e :: p.1, p.2)
    else
      let p := scanStr cs
      (c :: p.1, p.2)

/-- `Lexer::make_string_literal`, called with the scanner on the
opening quote.  On a missing closing quote the C++ code prints a
warning to `std::cerr` and still returns the token; the token text is
always `'"' + str_val + '"'`. -/
def make_string_literal (s : List Char) : Token × List Char :=
  let p := scanStr s.tail
  let v := p.1
  let r := p.2
  let r' := if r.head? = some '"' then r.tail else r
  (⟨TokenType.STRING_LITERAL, '"' :: (v ++ ['"']), TokenValue.str v⟩, r')

/-- `Lexer::get_next_token`.  Unmatched characters (including `':'` or
`'?'` not followed by `'='`, which fall through the C++ `switch`) are
consumed and returned as an `UNKNOWN` token. -/
def get_next_token (s : List Char) : Token × List Char :=
  let s1 := skip_whitespace_and_comments s
  match s1 with
  | [] => (eofToken, [])
  | c :: cs =>
    if c = nulChar then (eofToken, c :: cs)
    else if isAlphaC c ∨ c = '_' then
      let p := scanIdent (c :: cs)
      (make_identifier_or_keyword p.1, p.2)
    else if isDigitC c ∨ (c = '.' ∧ headIsDigit cs) then
      make_number (c :: cs)
    else if c = '"' then make_string_literal (c :: cs)
    else if c = ':' then
      if cs.head? = some '=' then (⟨TokenType.COLON_EQUALS, [':', '='], TokenValue.none⟩, cs.tail)
      else (⟨TokenType.UNKNOWN, [c], TokenValue.none⟩, cs)
    else if c = '?' then
      if cs.head? = some '=' then (⟨TokenType.QUESTION_EQUALS, ['?', '='], TokenValue.none⟩, cs.tail)
      else (⟨TokenType.UNKNOWN, [c], TokenValue.none⟩, cs)
    else if c = '+' then (⟨TokenType.PLUS, ['+'], TokenValue.none⟩, cs)
    else if c = ';' then (⟨TokenType.SEMICOLON, [';'], TokenValue.none⟩, cs)
    else if c = '(' then (⟨TokenType.LPAREN, ['('], TokenValue.none⟩, cs)
    else if c = ')' then (⟨TokenType.RPAREN, [')'], TokenValue.none⟩, cs)
    else if c = lbraceChar then (⟨TokenType.LBRACE, [lbraceChar], TokenValue.none⟩, cs)
    else if c = rbraceChar then (⟨TokenType.RBRACE, [rbraceChar], TokenValue.none⟩, cs)
    else if c = '<' then (⟨TokenType.LT, ['<'], TokenValue.none⟩, cs)
    else if c = '>' then (⟨TokenType.GT, ['>'], TokenValue.none⟩, cs)
    else if c = '.' then (⟨TokenType.DOT, ['.'], TokenValue.none⟩, cs)
    else if c = '/' then (⟨TokenType.SLASH, ['/'], TokenValue.none⟩, cs)
    else (⟨TokenType.UNKNOWN, [c], TokenValue.none⟩, cs)

/-- The loop of `Lexer::tokenize`: collect tokens until the first
`END_OF_FILE` or `UNKNOWN`; a trailing `UNKNOWN` is kept for error
reporting and an `END_OF_FILE` token is always appended.  The fuel-0
branch is unreachable from `tokenize` because every iteration consumes
at least one character. -/
def tokenizeLoop : Nat → List Char → List Token
  | 0, _ => []
  | f + 1, s =>
    let p := get_next_token s
    if p.1.type = TokenType.END_OF_FILE then [eofToken]
    else if p.1.type = TokenType.UNKNOWN then [p.1, eofToken]
    else p.1 :: tokenizeLoop f p.2

/-- `Lexer::tokenize`. -/
def tokenize (s : List Char) : List Token := tokenizeLoop (s.length + 1) s

/-! ### Abstract syntax tree (ast.h) -/

/-- `enum class HScriptType`. -/
inductive HScriptType where
  | NUMBER
  | LNUMBER
  | TEXT
  | LOGIC
  | RIEL
  | VOID
  | UNKNOWN
  deriving DecidableEq, Repr

/-- Expression nodes.  The last component of every constructor is the
mutable `expr_type` annotation field of `ExprNode`; the parser builds
nodes with the constructor defaults from ast.h (`LNUMBER`, `RIEL`,
`TEXT`, `LOGIC` for the literals, `UNKNOWN` otherwise) and the semantic
analyzer is modelled as producing the re-annotated copy. -/
inductive ExprNode where
  | intLit (value : Int) (ety : HScriptType)
  | dblLit (raw : List Char) (ety : HScriptType)
  | strLit (value : List Char) (ety : HScriptType)
  | boolLit (value : Bool) (ety : HScriptType)
  | ident (name : List Char) (ety : HScriptType)
  | binOp (left : ExprNode) (op : Token) (right : ExprNode) (ety : HScriptType)
  deriving DecidableEq, Repr

/-- The `expr_type` field. -/
def ExprNode.ety : ExprNode → HScriptType
  | .intLit _ t => t
  | .dblLit _ t => t
  | .strLit _ t => t
  | .boolLit _ t => t
  | .ident _ t => t
  | .binOp _ _ _ t => t

/-- Statement nodes (`VariableDeclarationNode`, `SaysStatementNode`,
`IfStatementNode`, `BlockStatementNode`). -/
inductive StatementNode where
  | varDecl (varType : HScriptType) (name : List Char) (expr : ExprNode)
  | says (expr : ExprNode)
  | ifStmt (cond : ExprNode) (thenBranch : StatementNode) (elseBranch : Option StatementNode)
  | block (stmts : List StatementNode)

/-- `UseNode`. -/
structure UseNode where
  header_name : List Char
  is_system_include : Bool
  deriving DecidableEq, Repr

/-- `ProgramNode`. -/
structure ProgramNode where
  statements : List StatementNode
  use_declarations : List UseNode

/-! ### Parser (parser.cpp)

The parser state is the not-yet-consumed token suffix; `Parser::peek`
past the end returns an `END_OF_FILE` token (the model below returns
`eofToken` on the empty list).  Thrown `std::runtime_error`s are
modelled as structured `ParseErr` values carrying the data the C++
message interpolates. -/

inductive ParseErr where
  | consumeFail (expected : TokenType) (got : Token)
  | unexpectedTopLevel (t : Token)
  | unexpectedStatementStart (t : Token)
  | invalidTypeKeywordInVarDecl
  | badIntegerPayload
  | badVariantAccess
  | notAFactor (t : Token)
  | invalidUsePathToken (t : Token)
  | emptyUsePath
  | unknownFromLexer
  | outOfFuel
  deriving DecidableEq, Repr

/-- `Parser::peek`. -/
def ppeek : List Token → Token
  | [] => eofToken
  | t :: _ => t

/-- The state after `Parser::advance`. -/
def ptail : List Token → List Token
  | [] => []
  | _ :: ts => ts

/-- The grammar rule being run, for the single fueled expression-parser
recursion below; `compLoop` / `addLoop` are the `while` loops of
`parse_comparison` / `parse_addition` with their accumulated left tree. -/
inductive ParseRule where
  | expr
  | comp
  | compLoop (left : ExprNode)
  | add
  | addLoop (left : ExprNode)
  | factor
  deriving Repr

/-- `Parser::parse_expression` / `parse_comparison` / `parse_addition` /
`parse_factor`, as one fueled mutual recursion (fuel only guards the
`(expr)`-recursion and the operator loops; it is unreachable from the
wrappers below). -/
def parseExprRec : Nat → ParseRule → List Token → Except ParseErr (ExprNode × List Token)
  | 0, _, _ => .error ParseErr.outOfFuel
  | f + 1, r, ts =>
    match r with
    | .expr => parseExprRec f .comp ts
    | .comp => do
      let p ← parseExprRec f .add ts
      parseExprRec f (.compLoop p.1) p.2
    | .compLoop l =>
      if (ppeek ts).type = TokenType.QUESTION_EQUALS then do
        let op := ppeek ts
        let p ← parseExprRec f .add (ptail ts)
        parseExprRec f (.compLoop (.binOp l op p.1 HScriptType.UNKNOWN)) p.2
      else .ok (l, ts)
    | .add => do
      let p ← parseExprRec f .factor ts
      parseExprRec f (.addLoop p.1) p.2
    | .addLoop l =>
      if (ppeek ts).type = TokenType.PLUS then do
        let op := ppeek ts
        let p ← parseExprRec f .factor (ptail ts)
        parseExprRec f (.addLoop (.binOp l op p.1 HScriptType.UNKNOWN)) p.2
      else .ok (l, ts)
    | .factor =>
      let t := ppeek ts
      if t.type = TokenType.INTEGER_LITERAL then
        match t.value with
        | TokenValue.longlong n => .ok (.intLit n HScriptType.LNUMBER, ptail ts)
        | TokenValue.int n => .ok (.intLit n HScriptType.LNUMBER, ptail ts)
        | _ => .error ParseErr.badIntegerPayload
      else if t.type = TokenType.DOUBLE_LITERAL then
        match t.value with
        | TokenValue.double raw => .ok (.dblLit raw HScriptType.RIEL, ptail ts)
        | _ => .error ParseErr.badVariantAccess
      else if t.type = TokenType.STRING_LITERAL then
        match t.value with
        | TokenValue.str v => .ok (.strLit v HScriptType.TEXT, ptail ts)
        | _ => .error ParseErr.badVariantAccess
      else if t.type = TokenType.KEYWORD_TRUE then .ok (.boolLit true HScriptType.LOGIC, ptail ts)
      else if t.type = TokenType.KEYWORD_FALSE then .ok (.boolLit false HScriptType.LOGIC, ptail ts)
      else if t.type = TokenType.IDENTIFIER then
        match t.value with
        | TokenValue.str n => .ok (.ident n HScriptType.UNKNOWN, ptail ts)
        | _ => .error ParseErr.badVariantAccess
      else if t.type = TokenType.LPAREN then do
        let p ← parseExprRec f .expr (ptail ts)
        if (ppeek p.2).type = TokenType.RPAREN then .ok (p.1, ptail p.2)
        else .error (ParseErr.consumeFail TokenType.RPAREN (ppeek p.2))
      else .error (ParseErr.notAFactor t)

/-- `Parser::parse_expression`. -/
def parse_expression (ts : List Token) : Except ParseErr (ExprNode × List Token) :=
  parseExprRec (4 * ts.length + 16) .expr ts

/-- The type-keyword dispatch of `parse_variable_declaration_statement`. -/
def hscriptTypeOfKeyword : TokenType → Option HScriptType
  | TokenType.KEYWORD_NUMBER => some HScriptType.NUMBER
  | TokenType.KEYWORD_LNUMBER => some HScriptType.LNUMBER
  | TokenType.KEYWORD_TEXT => some HScriptType.TEXT
  | TokenType.KEYWORD_LOGIC => some HScriptType.LOGIC
  | TokenType.KEYWORD_RIEL => some HScriptType.RIEL
  | _ => Option.none

/-- `Parser::parse_variable_declaration_statement`.  The
`std::get<std::string>` on the identifier token's payload happens when
the node is constructed, i.e. after the whole declaration has been
consumed. -/
def parse_variable_declaration_statement (ts : List Token) :
    Except ParseErr (StatementNode × List Token) :=
  let typeTok := ppeek ts
  let ts1 := ptail ts
  match hscriptTypeOfKeyword typeTok.type with
  | Option.none => .error ParseErr.invalidTypeKeywordInVarDecl
  | some ty =>
    let identTok := ppeek ts1
    if identTok.type = TokenType.IDENTIFIER then
      let ts2 := ptail ts1
      if (ppeek ts2).type = TokenType.COLON_EQUALS then do
        let p ← parse_expression (ptail ts2)
        if (ppeek p.2).type = TokenType.SEMICOLON then
          match identTok.value with
          | TokenValue.str name => .ok (.varDecl ty name p.1, ptail p.2)
          | _ => .error ParseErr.badVariantAccess
        else .error (ParseErr.consumeFail TokenType.SEMICOLON (ppeek p.2))
      else .error (ParseErr.consumeFail TokenType.COLON_EQUALS (ppeek ts2))
    else .error (ParseErr.consumeFail TokenType.IDENTIFIER identTok)

/-- `Parser::parse_says_statement`. -/
def parse_says_statement (ts : List Token) : Except ParseErr (StatementNode × List Token) :=
  if (ppeek ts).type = TokenType.KEYWORD_SAYS then do
    let p ← parse_expression (ptail ts)
    if (ppeek p.2).type = TokenType.SEMICOLON then .ok (.says p.1, ptail p.2)
    else .error (ParseErr.consumeFail TokenType.SEMICOLON (ppeek p.2))
  else .error (ParseErr.consumeFail TokenType.KEYWORD_SAYS (ppeek ts))

/-- `Parser::parse_statement`: only variable declarations and `says`
statements are dispatched; everything else (including `if`) throws. -/
def parse_statement (ts : List Token) : Except ParseErr (StatementNode × List Token) :=
  let t := ppeek ts
  if t.type = TokenType.KEYWORD_NUMBER ∨ t.type = TokenType.KEYWORD_LNUMBER ∨
      t.type = TokenType.KEYWORD_TEXT ∨ t.type = TokenType.KEYWORD_LOGIC ∨
      t.type = TokenType.KEYWORD_RIEL then
    parse_variable_declaration_statement ts
  else if t.type = TokenType.KEYWORD_SAYS then parse_says_statement ts
  else .error (ParseErr.unexpectedStatementStart t)

/-- The collection loop of `Parser::parse_header_path`. -/
def parseHeaderPathLoop : Nat → List Token → List Char →
    Except ParseErr (List Char × List Token)
  | 0, _, _ => .error ParseErr.outOfFuel
  | f + 1, ts, acc =>
    if (ppeek ts).type ≠ TokenType.GT ∧ (ppeek ts).type ≠ TokenType.END_OF_FILE then
      let t := ppeek ts
      if t.type = TokenType.IDENTIFIER ∨ t.type = TokenType.DOT ∨
          t.type = TokenType.SLASH ∨ t.type = TokenType.INTEGER_LITERAL ∨
          t.text = ['h'] then
        parseHeaderPathLoop f (ptail ts) (acc ++ t.text)
      else .error (ParseErr.invalidUsePathToken t)
    else if acc = [] then .error ParseErr.emptyUsePath
    else .ok (acc, ts)

/-- `Parser::parse_use_declaration` (with `parse_header_path`). -/
def parse_use_declaration (ts : List Token) : Except ParseErr (UseNode × List Token) :=
  if (ppeek ts).type = TokenType.KEYWORD_USE then
    let ts1 := ptail ts
    if (ppeek ts1).type = TokenType.LT then do
      let p ← parseHeaderPathLoop (ts1.length + 1) (ptail ts1) []
      if (ppeek p.2).type = TokenType.GT then
        if (ppeek (ptail p.2)).type = TokenType.SEMICOLON then
          .ok (⟨p.1, true⟩, ptail (ptail p.2))
        else .error (ParseErr.consumeFail TokenType.SEMICOLON (ppeek (ptail p.2)))
      else .error (ParseErr.consumeFail TokenType.GT (ppeek p.2))
    else .error (ParseErr.consumeFail TokenType.LT (ppeek ts1))
  else .error (ParseErr.consumeFail TokenType.KEYWORD_USE (ppeek ts))

/-- The `use`-declaration loop at the top of `parse_program`. -/
def parseUseDeclsLoop : Nat → List Token → List UseNode →
    Except ParseErr (List UseNode × List Token)
  | 0, _, _ => .error ParseErr.outOfFuel
  | f + 1, ts, acc =>
    if (ppeek ts).type = TokenType.KEYWORD_USE then do
      let p ← parse_use_declaration ts
      parseUseDeclsLoop f p.2 (acc ++ [p.1])
    else .ok (acc, ts)

/-- The statement loop of `parse_program`: top-level statements must
start with a type keyword or `says`; on any other non-EOF token the
loop body throws (its inner `peek != EOF` test is always true there). -/
def parseStatementsLoop : Nat → List Token → List StatementNode →
    Except ParseErr (List StatementNode × List Token)
  | 0, _, _ => .error ParseErr.outOfFuel
  | f + 1, ts, acc =>
    let t := ppeek ts
    if t.type ≠ TokenType.END_OF_FILE ∧ t.type ≠ TokenType.UNKNOWN then
      if t.type = TokenType.KEYWORD_NUMBER ∨ t.type = TokenType.KEYWORD_LNUMBER ∨
          t.type = TokenType.KEYWORD_TEXT ∨ t.type = TokenType.KEYWORD_LOGIC ∨
          t.type = TokenType.KEYWORD_RIEL ∨ t.type = TokenType.KEYWORD_SAYS then do
        let p ← parse_statement ts
        parseStatementsLoop f p.2 (acc ++ [p.1])
      else .error (ParseErr.unexpectedTopLevel t)
    else .ok (acc, ts)

/-- `Parser::parse_program`. -/
def parse_program (ts : List Token) : Except ParseErr ProgramNode := do
  let u ← parseUseDeclsLoop (ts.length + 1) ts []
  let p ← parseStatementsLoop (u.2.length + 1) u.2 []
  if (ppeek p.2).type = TokenType.UNKNOWN ∧ ts ≠ [] ∧
      (match ts with | [] => eofToken | t0 :: _ => t0).type ≠ TokenType.END_OF_FILE then
    .error ParseErr.unknownFromLexer
  else .ok ⟨p.1, u.1⟩

/-! ### Semantic analyzer (semantic_analyzer.cpp)

The single flat symbol table (`std::unordered_map<std::string, Symbol>`)
is modelled as an association list mapping names to declared types (the
`Symbol` struct's `is_initialized` flag is always `true` and its `name`
duplicates the key).  The analyzer's in-place `expr_type` mutations are
modelled by returning the re-annotated copy of each node; thrown
`std::runtime_error`s become structured `SemErr` values carrying the
data the C++ message interpolates.  Fail-fast: the first error aborts
the whole analysis. -/

abbrev SymTable := List (List Char × HScriptType)

/-- `symbol_table.count(name)`-style lookup. -/
def lookupSym : SymTable → List Char → Option HScriptType
  | [], _ => Option.none
  | (k, v) :: rest, n => if k = n then some v else lookupSym rest n

inductive SemErr where
  | redeclared (name : List Char)
  | usedBeforeDeclaration (name : List Char)
  | typeMismatch (name : List Char) (valueType : HScriptType) (targetType : HScriptType)
  | saysVoidOrUnknown
  | ifConditionNotLogic (got : HScriptType)
  | invalidOperands (op : Token) (leftType : HScriptType) (rightType : HScriptType)
  | outOfFuel
  deriving DecidableEq, Repr

/-- `SemanticAnalyzer::is_assignable`. -/
def is_assignable (target_type value_type : HScriptType) : Bool :=
  if target_type = value_type then true
  else if target_type = HScriptType.LNUMBER ∧ value_type = HScriptType.NUMBER then true
  else if target_type = HScriptType.RIEL ∧
      (value_type = HScriptType.NUMBER ∨ value_type = HScriptType.LNUMBER) then true
  else false

/-- `SemanticAnalyzer::get_binary_op_result_type`. -/
def get_binary_op_result_type (left_type right_type : HScriptType)
    (op_token_type : TokenType) : HScriptType :=
  if op_token_type = TokenType.PLUS then
    if (left_type = HScriptType.NUMBER ∨ left_type = HScriptType.LNUMBER ∨
        left_type = HScriptType.RIEL) ∧
       (right_type = HScriptType.NUMBER ∨ right_type = HScriptType.LNUMBER ∨
        right_type = HScriptType.RIEL) then
      if left_type = HScriptType.RIEL ∨ right_type = HScriptType.RIEL then HScriptType.RIEL
      else if left_type = HScriptType.LNUMBER ∨ right_type = HScriptType.LNUMBER then
        HScriptType.LNUMBER
      else HScriptType.NUMBER
    else if left_type = HScriptType.TEXT ∧ right_type = HScriptType.TEXT then HScriptType.TEXT
    else if left_type = HScriptType.TEXT ∧
        (right_type ≠ HScriptType.VOID ∧ right_type ≠ HScriptType.UNKNOWN) then HScriptType.TEXT
    else if right_type = HScriptType.TEXT ∧
        (left_type ≠ HScriptType.VOID ∧ left_type ≠ HScriptType.UNKNOWN) then HScriptType.TEXT
    else HScriptType.UNKNOWN
  else if op_token_type = TokenType.QUESTION_EQUALS then
    if left_type = right_type ∧ left_type ≠ HScriptType.VOID ∧
        left_type ≠ HScriptType.UNKNOWN then HScriptType.LOGIC
    else if (left_type = HScriptType.NUMBER ∨ left_type = HScriptType.LNUMBER ∨
        left_type = HScriptType.RIEL) ∧
       (right_type = HScriptType.NUMBER ∨ right_type = HScriptType.LNUMBER ∨
        right_type = HScriptType.RIEL) then HScriptType.LOGIC
    else HScriptType.UNKNOWN
  else HScriptType.UNKNOWN

/-- `SemanticAnalyzer::visit_and_get_type` (all expression overloads):
returns the re-annotated node together with its resolved type. -/
def visit_and_get_type (st : SymTable) : ExprNode → Except SemErr (ExprNode × HScriptType)
  | .intLit v _ => .ok (.intLit v HScriptType.LNUMBER, HScriptType.LNUMBER)
  | .dblLit r _ => .ok (.dblLit r HScriptType.RIEL, HScriptType.RIEL)
  | .strLit v _ => .ok (.strLit v HScriptType.TEXT, HScriptType.TEXT)
  | .boolLit b _ => .ok (.boolLit b HScriptType.LOGIC, HScriptType.LOGIC)
  | .ident n _ =>
    match lookupSym st n with
    | Option.none => .error (SemErr.usedBeforeDeclaration n)
    | some ty => .ok (.ident n ty, ty)
  | .binOp l op r _ => do
    let pl ← visit_and_get_type st l
    let pr ← visit_and_get_type st r
    let res := get_binary_op_result_type pl.2 pr.2 op.type
    if res = HScriptType.UNKNOWN then .error (SemErr.invalidOperands op pl.2 pr.2)
    else .ok (.binOp pl.1 op pr.1 res, res)

mutual

/-- `SemanticAnalyzer::visit` on statements (all four overloads; the
dynamic-type dispatch of the `StatementNode*` overload is the `match`,
closed by construction, so the C++ "unknown statement type" branch has
no counterpart).  A variable declaration checks redeclaration, then
types its initializer bottom-up, then checks assignability, and only
then inserts the name with its declared type; `if` branches and blocks
thread the single flat symbol table through unchanged (no scoping). -/
def visit_stmt (st : SymTable) (s : StatementNode) : Except SemErr (StatementNode × SymTable) :=
  match s with
  | .varDecl ty name e =>
    if (lookupSym st name).isSome then .error (SemErr.redeclared name)
    else do
      let p ← visit_and_get_type st e
      if is_assignable ty p.2 then .ok (.varDecl ty name p.1, (name, ty) :: st)
      else .error (SemErr.typeMismatch name p.2 ty)
  | .says e => do
    let p ← visit_and_get_type st e
    if p.2 = HScriptType.VOID ∨ p.2 = HScriptType.UNKNOWN then .error SemErr.saysVoidOrUnknown
    else .ok (.says p.1, st)
  | .ifStmt c tb eb => do
    let pc ← visit_and_get_type st c
    if pc.2 ≠ HScriptType.LOGIC then .error (SemErr.ifConditionNotLogic pc.2)
    else do
      let pt ← visit_stmt st tb
      match eb with
      | Option.none => .ok (.ifStmt pc.1 pt.1 Option.none, pt.2)
      | some el => do
        let pe ← visit_stmt pt.2 el
        .ok (.ifStmt pc.1 pt.1 (some pe.1), pe.2)
  | .block ss => do
    let p ← visitStmtList st ss
    .ok (.block p.1, p.2)

/-- The loop of `SemanticAnalyzer::visit(const BlockStatementNode*)`:
visit each statement of the block in order. -/
def visitStmtList (st : SymTable) : List StatementNode →
    Except SemErr (List StatementNode × SymTable)
  | [] => .ok ([], st)
  | s :: rest => do
    let p ← visit_stmt st s
    let q ← visitStmtList p.2 rest
    .ok (p.1 :: q.1, q.2)

end

/-- `SemanticAnalyzer::analyze`: clears the symbol table, logs the
`use` declarations (no semantic effect), then visits every top-level
statement in order; returns the annotated program and the final symbol
table. -/
def analyze (p : ProgramNode) : Except SemErr (ProgramNode × SymTable) := do
  let q ← p.statements.foldlM
    (fun (acc : List StatementNode × SymTable) s => do
      let r ← visit_stmt acc.2 s
      .ok (acc.1 ++ [r.1], r.2))
    (([] : List StatementNode), ([] : SymTable))
  .ok (⟨q.1, p.use_declarations⟩, q.2)

/-! ### Code generator (code_generator.cpp)

Generation renders `List Char` target text; the two thrown
`std::runtime_error`s (unknown type mapping, unsupported binary
operator) are modelled as `GenErr`.  The `expected_context_type`
parameter of `generate_cpp_for_expression` is never read by the C++
code and is dropped.  Braces in the emitted text are written `\x7b` /
`\x7d` in the string literals below. -/

inductive GenErr where
  | unknownTypeMapping
  | unsupportedBinaryOperator (t : Token)
  deriving DecidableEq, Repr

/-- `CodeGenerator::hscript_type_to_cpp_type`. -/
def hscript_type_to_cpp_type : HScriptType → Except GenErr (List Char)
  | HScriptType.NUMBER => .ok "int".toList
  | HScriptType.LNUMBER => .ok "long long".toList
  | HScriptType.TEXT => .ok "std::string".toList
  | HScriptType.LOGIC => .ok "bool".toList
  | HScriptType.RIEL => .ok "double".toList
  | HScriptType.VOID => .ok "void".toList
  | HScriptType.UNKNOWN => .error GenErr.unknownTypeMapping

/-- `std::to_string` on a `long long`. -/
def intToChars (n : Int) : List Char :=
  if n < 0 then '-' :: Nat.toDigits 10 (-n).toNat else Nat.toDigits 10 n.toNat

/-- Splits a double literal's text at its first `'.'`. -/
def splitAtDot : List Char → List Char × List Char
  | [] => ([], [])
  | c :: cs =>
    if c = '.' then ([], cs)
    else
      let p := splitAtDot cs
      (c :: p.1, p.2)

/-- Models `std::to_string(double)` (`%f`, six fixed decimals) applied
to the value `std::stod` parsed from the literal text: exact decimal
arithmetic on the digits rounded half-up to six places.  (The binary
double rounding performed by the real `stod`/`to_string` pair can
differ from this in the seventh-and-beyond decimal place only; no
claim depends on this rendering.) -/
def doubleFixed6 (raw : List Char) : List Char :=
  let p := splitAtDot raw
  let ipart := digitsToNat p.1
  let fdigits := p.2
  let k := fdigits.length
  let scaled := (ipart * 10 ^ k + digitsToNat fdigits) * 10 ^ 6
  let rounded := (scaled + 10 ^ k / 2) / 10 ^ k
  let whole := rounded / 10 ^ 6
  let frac := rounded % 10 ^ 6
  let fracDigits := Nat.toDigits 10 frac
  Nat.toDigits 10 whole ++ '.' :: (List.replicate (6 - fracDigits.length) '0' ++ fracDigits)

/-- The escape loop of `generate_expr_code(StringLiteralNode)`. -/
def escapeCpp : List Char → List Char
  | [] => []
  | c :: cs =>
    (if c = '"' then ['\\', '"']
     else if c = '\\' then ['\\', '\\']
     else if c = '\n' then ['\\', 'n']
     else if c = '\r' then ['\\', 'r']
     else if c = '\t' then ['\\', 't']
     else [c]) ++ escapeCpp cs

/-- `CodeGenerator::generate_cpp_for_expression` together with the
`generate_expr_code` overloads it dispatches to.  An integer literal is
rendered with the `LL` suffix; a double literal through
`std::to_string` plus the ensure-decimal-point check; a string literal
re-escaped; `+` at overall type `text` wraps each operand whose own
resolved type is not `text` in `std::to_string(...)`; `?=` lowers to
`==`; any other operator token throws. -/
def generate_cpp_for_expression : ExprNode → Except GenErr (List Char)
  | .intLit v _ => .ok (intToChars v ++ ['L', 'L'])
  | .dblLit raw _ =>
    let s := doubleFixed6 raw
    if ('.' ∈ s ∨ 'e' ∈ s ∨ 'E' ∈ s) then .ok s else .ok (s ++ ['.', '0'])
  | .strLit v _ => .ok ('"' :: (escapeCpp v ++ ['"']))
  | .boolLit b _ => .ok (if b then "true".toList else "false".toList)
  | .ident n _ => .ok n
  | .binOp l op r ety => do
    let lc ← generate_cpp_for_expression l
    let rc ← generate_cpp_for_expression r
    if op.type = TokenType.PLUS then
      let lc' := if ety = HScriptType.TEXT ∧ l.ety ≠ HScriptType.TEXT then
        "std::to_string(".toList ++ lc ++ [')'] else lc
      let rc' := if ety = HScriptType.TEXT ∧ r.ety ≠ HScriptType.TEXT then
        "std::to_string(".toList ++ rc ++ [')'] else rc
      .ok ('(' :: (lc' ++ " + ".toList ++ rc' ++ [')']))
    else if op.type = TokenType.QUESTION_EQUALS then
      .ok ('(' :: (lc ++ " == ".toList ++ rc ++ [')']))
    else .error (GenErr.unsupportedBinaryOperator op)

/-- The two `dynamic_cast<const BlockStatementNode*>(...)` tests in
`CodeGenerator::visit(IfStatementNode)`. -/
def isBlock : StatementNode → Bool
  | .block _ => true
  | _ => false

mutual

/-- `CodeGenerator::visit` on statements (all four overloads; the
dynamic-type dispatch is the `match`, closed by construction).  An `if`
reuses a block branch's own braces and synthesizes braces around a bare
statement branch; the `else` branch, when present, is rendered the same
way after `" else "`. -/
def genStmt (s : StatementNode) : Except GenErr (List Char) :=
  match s with
  | .varDecl ty name e => do
    let ct ← hscript_type_to_cpp_type ty
    let ec ← generate_cpp_for_expression e
    .ok (ct ++ [' '] ++ name ++ " = ".toList ++ ec ++ ";\n".toList)
  | .says e => do
    let ec ← generate_cpp_for_expression e
    let inner :=
      if e.ety = HScriptType.TEXT then ec
      else if e.ety = HScriptType.NUMBER ∨ e.ety = HScriptType.LNUMBER ∨
          e.ety = HScriptType.RIEL ∨ e.ety = HScriptType.LOGIC then ec
      else "std::to_string(".toList ++ ec ++ [')']
    .ok ("std::cout << (".toList ++ inner ++ ") << std::endl;\n".toList)
  | .ifStmt c tb eb => do
    let cc ← generate_cpp_for_expression c
    let tb' ← genStmt tb
    let tpart := if isBlock tb then tb'
      else "\x7b\n        ".toList ++ tb' ++ "    \x7d".toList
    let epart ←
      match eb with
      | Option.none => .ok ([] : List Char)
      | some el => do
        let el' ← genStmt el
        .ok (" else ".toList ++ (if isBlock el then el'
          else "\x7b\n        ".toList ++ el' ++ "    \x7d".toList))
    .ok ("if (".toList ++ cc ++ ") ".toList ++ tpart ++ epart ++ ['\n'])
  | .block ss => do
    let body ← genStmtList ss
    .ok ("\x7b\n".toList ++ body ++ "    \x7d".toList)

/-- The loop of `CodeGenerator::visit(const BlockStatementNode*)`:
each inner statement is emitted behind eight spaces of indentation. -/
def genStmtList : List StatementNode → Except GenErr (List Char)
  | [] => .ok []
  | s :: rest => do
    let c ← genStmt s
    let r ← genStmtList rest
    .ok ("        ".toList ++ c ++ r)

end

/-- `u->header_name == name` search over the `use` declarations
(the `std::find_if` calls in `CodeGenerator::generate`). -/
def useHas (uses : List UseNode) (name : List Char) : Bool :=
  uses.any (fun u => u.header_name = name)

/-- The top-level statement loop of `CodeGenerator::generate`, each
statement behind four spaces of indentation. -/
def genTopStmts : List StatementNode → Except GenErr (List Char)
  | [] => .ok []
  | s :: rest => do
    let c ← genStmt s
    let r ← genTopStmts rest
    .ok ("    ".toList ++ c ++ r)

/-- `CodeGenerator::generate`: header comment, explicit includes from
the `use` declarations, the pre-scan of the top-level statements for
`says` and `text` usage driving the auto-includes (`<string>`,
`<iostream>`, `<iomanip>`), the `main` wrapper with the `boolalpha`
prologue when iostream is included, the rendered statements, and the
terminating return. -/
def generate (p : ProgramNode) : Except GenErr (List Char) := do
  let header := "// Generated by HumanScript Compiler\n\n".toList
  let includes := (p.use_declarations.map
    (fun u => "#include <".toList ++ u.header_name ++ ">\n".toList)).flatten
  let iostreamByUse := useHas p.use_declarations "iostream".toList
  let sep := if p.use_declarations.isEmpty then ([] : List Char) else ['\n']
  let says_is_used := p.statements.any (fun s =>
    match s with
    | .says _ => true
    | _ => false)
  let text_type_is_used := p.statements.any (fun s =>
    match s with
    | .varDecl ty _ e => ty = HScriptType.TEXT ∨ e.ety = HScriptType.TEXT
    | .says e => e.ety = HScriptType.TEXT
    | _ => false)
  let autoString := if text_type_is_used ∧ ¬ useHas p.use_declarations "string".toList then
    "#include <string> // Auto-included for text type or string operations\n".toList
    else []
  let saysIncludes := if says_is_used then
      (if ¬ iostreamByUse then "#include <iostream> // Auto-included for 'says'\n".toList
        else []) ++
      (if ¬ useHas p.use_declarations "iomanip".toList then
        "#include <iomanip>  // For std::boolalpha with 'says'\n".toList else []) ++
      (if ¬ useHas p.use_declarations "string".toList then
        (if ¬ (text_type_is_used ∧ ¬ useHas p.use_declarations "string".toList) then
          "#include <string>   // For std::to_string with 'says'\n".toList else [])
        else []) ++
      ['\n']
    else []
  let iostream_included := iostreamByUse ∨ says_is_used
  let prologue := if iostream_included then
    "    std::cout << std::boolalpha; // Print booleans as true/false\n".toList else []
  let body ← genTopStmts p.statements
  .ok (header ++ includes ++ sep ++ autoString ++ saysIncludes ++
    "int main() \x7b\n".toList ++ prologue ++ body ++ "    return 0;\n\x7d\n".toList)


/-- The `+` operator token as the lexer produces it. -/
def plusTok : Token := ⟨TokenType.PLUS, ['+'], TokenValue.none⟩

/-- The `?=` operator token as the lexer produces it. -/
def qeTok : Token := ⟨TokenType.QUESTION_EQUALS, ['?', '='], TokenValue.none⟩

/-- The non-parenthesized factor tokens (integer, double, string and
boolean literals, identifiers) together with the node `parse_factor`
builds for each; the payload constraints mirror the
`std::holds_alternative` / `std::get` accesses of the C++ code. -/
inductive SimpleFactor : Token → ExprNode → Prop
  | intLL (n : Int) (txt : List Char) :
      SimpleFactor ⟨TokenType.INTEGER_LITERAL, txt, TokenValue.longlong n⟩
        (.intLit n HScriptType.LNUMBER)
  | int32 (n : Int) (txt : List Char) :
      SimpleFactor ⟨TokenType.INTEGER_LITERAL, txt, TokenValue.int n⟩
        (.intLit n HScriptType.LNUMBER)
  | dbl (raw txt : List Char) :
      SimpleFactor ⟨TokenType.DOUBLE_LITERAL, txt, TokenValue.double raw⟩
        (.dblLit raw HScriptType.RIEL)
  | strT (v txt : List Char) :
      SimpleFactor ⟨TokenType.STRING_LITERAL, txt, TokenValue.str v⟩
        (.strLit v HScriptType.TEXT)
  | kwTrue (txt : List Char) (val : TokenValue) :
      SimpleFactor ⟨TokenType.KEYWORD_TRUE, txt, val⟩ (.boolLit true HScriptType.LOGIC)
  | kwFalse (txt : List Char) (val : TokenValue) :
      SimpleFactor ⟨TokenType.KEYWORD_FALSE, txt, val⟩ (.boolLit false HScriptType.LOGIC)
  | idn (n txt : List Char) :
      SimpleFactor ⟨TokenType.IDENTIFIER, txt, TokenValue.str n⟩ (.ident n HScriptType.UNKNOWN)


/-! ### Round-trip apparatus

`joinedTexts` is the spec's "concatenation of each returned token's
text field, joined with single spaces".  `tokenTextOK` characterizes
the text field of every token the lexer can produce (proved below);
`stringValueOK` is the side condition of the amended round-trip claim:
a re-lexed string literal keeps its extent exactly when its value
contains no `'"'` and no NUL and does not end with a backslash. -/

/-- The spec's re-lexing input: token texts joined with single spaces. -/
def joinedTexts (ts : List Token) : List Char :=
  List.intercalate [' '] (ts.map Token.text)

/-- Characters allowed inside an identifier. -/
def isIdentChar (c : Char) : Bool := isAlnumC c ∨ c = '_'

/-- Whether a text starts with an identifier-start character. -/
def headIsIdentStart : List Char → Bool
  | [] => false
  | c :: _ => isAlphaC c ∨ c = '_'

/-- The shape of a double literal's text: an optional digit run, a
`'.'`, then a nonempty digit run to the end. -/
def isDoubleText (l : List Char) : Bool :=
  match l.drop (l.takeWhile isDigitC).length with
  | c :: b => c = '.' ∧ b ≠ [] ∧ b.all isDigitC
  | [] => false

/-- The shape of each produced token's text, by token kind. -/
def tokenTextOK (t : Token) : Bool :=
  match t.type with
  | TokenType.KEYWORD_NUMBER => keywordLookup t.text = some TokenType.KEYWORD_NUMBER
  | TokenType.KEYWORD_LNUMBER => keywordLookup t.text = some TokenType.KEYWORD_LNUMBER
  | TokenType.KEYWORD_TEXT => keywordLookup t.text = some TokenType.KEYWORD_TEXT
  | TokenType.KEYWORD_LOGIC => keywordLookup t.text = some TokenType.KEYWORD_LOGIC
  | TokenType.KEYWORD_RIEL => keywordLookup t.text = some TokenType.KEYWORD_RIEL
  | TokenType.KEYWORD_SAYS => keywordLookup t.text = some TokenType.KEYWORD_SAYS
  | TokenType.KEYWORD_TRUE => keywordLookup t.text = some TokenType.KEYWORD_TRUE
  | TokenType.KEYWORD_FALSE => keywordLookup t.text = some TokenType.KEYWORD_FALSE
  | TokenType.KEYWORD_USE => keywordLookup t.text = some TokenType.KEYWORD_USE
  | TokenType.KEYWORD_IF => keywordLookup t.text = some TokenType.KEYWORD_IF
  | TokenType.KEYWORD_ELSE => keywordLookup t.text = some TokenType.KEYWORD_ELSE
  | TokenType.IDENTIFIER =>
    headIsIdentStart t.text ∧ t.text.all isIdentChar ∧ keywordLookup t.text = Option.none
  | TokenType.INTEGER_LITERAL => t.text ≠ [] ∧ t.text.all isDigitC
  | TokenType.DOUBLE_LITERAL => isDoubleText t.text
  | TokenType.STRING_LITERAL =>
    (match t.value with
     | TokenValue.str v => decide (t.text = '"' :: (v ++ ['"']))
     | _ => false)
  | TokenType.COLON_EQUALS => t.text = [':', '=']
  | TokenType.QUESTION_EQUALS => t.text = ['?', '=']
  | TokenType.PLUS => t.text = ['+']
  | TokenType.SEMICOLON => t.text = [';']
  | TokenType.LPAREN => t.text = ['(']
  | TokenType.RPAREN => t.text = [')']
  | TokenType.LBRACE => t.text = [lbraceChar]
  | TokenType.RBRACE => t.text = [rbraceChar]
  | TokenType.LT => t.text = ['<']
  | TokenType.GT => t.text = ['>']
  | TokenType.DOT => t.text = ['.']
  | TokenType.SLASH => t.text = ['/']
  | TokenType.END_OF_FILE => t.text = []
  | TokenType.UNKNOWN => true

/-- Side condition of the amended round-trip claim on string-literal
values. -/
def stringValueOK (t : Token) : Bool :=
  match t.type, t.value with
  | TokenType.STRING_LITERAL, TokenValue.str v =>
    decide (v.contains '"' = false ∧ v.getLast? ≠ some '\\' ∧ v.contains nulChar = false)
  | TokenType.STRING_LITERAL, _ => false
  | _, _ => true

/-- The stop condition on the joined re-lex input after a token: either
end-of-input or the separating space. -/
def restStops (rest : List Char) : Prop := rest = [] ∨ rest.head? = some ' '

/-! ## Helper lemmas -/

/-- Computation rule for the `Except` monad's bind on a success value
(used to reduce the `do` blocks of the embedded visitors). -/
theorem except_ok_bind {ε α β : Type} (a : α) (f : α → Except ε β) :
    ((Except.ok a : Except ε α) >>= f) = f a := rfl

/-- `parse_factor` on a simple factor token consumes exactly that
token and returns its node. -/
theorem parseFactor_simple {t : Token} {A : ExprNode} (h : SimpleFactor t A)
    (f : Nat) (rest : List Token) :
    parseExprRec (f + 1) ParseRule.factor (t :: rest) = .ok (A, rest) := by
  cases h <;> simp [parseExprRec, ppeek, ptail]

theorem pe_expr (f : Nat) (ts : List Token) :
    parseExprRec (f + 1) ParseRule.expr ts = parseExprRec f ParseRule.comp ts := rfl

theorem pe_comp (f : Nat) (ts : List Token) :
    parseExprRec (f + 1) ParseRule.comp ts =
      (parseExprRec f ParseRule.add ts) >>= fun p =>
        parseExprRec f (ParseRule.compLoop p.1) p.2 := rfl

theorem pe_add (f : Nat) (ts : List Token) :
    parseExprRec (f + 1) ParseRule.add ts =
      (parseExprRec f ParseRule.factor ts) >>= fun p =>
        parseExprRec f (ParseRule.addLoop p.1) p.2 := rfl

theorem pe_addLoop_stop (f : Nat) (l : ExprNode) (ts : List Token)
    (h : (ppeek ts).type ≠ TokenType.PLUS) :
    parseExprRec (f + 1) (ParseRule.addLoop l) ts = .ok (l, ts) := by
  simp [parseExprRec, h]

theorem pe_addLoop_step (f : Nat) (l : ExprNode) (ts : List Token)
    (h : (ppeek ts).type = TokenType.PLUS) :
    parseExprRec (f + 1) (ParseRule.addLoop l) ts =
      (parseExprRec f ParseRule.factor (ptail ts)) >>= fun p =>
        parseExprRec f (ParseRule.addLoop (.binOp l (ppeek ts) p.1 HScriptType.UNKNOWN)) p.2 := by
  simp [parseExprRec, h]

theorem pe_compLoop_stop (f : Nat) (l : ExprNode) (ts : List Token)
    (h : (ppeek ts).type ≠ TokenType.QUESTION_EQUALS) :
    parseExprRec (f + 1) (ParseRule.compLoop l) ts = .ok (l, ts) := by
  simp [parseExprRec, h]

theorem pe_compLoop_step (f : Nat) (l : ExprNode) (ts : List Token)
    (h : (ppeek ts).type = TokenType.QUESTION_EQUALS) :
    parseExprRec (f + 1) (ParseRule.compLoop l) ts =
      (parseExprRec f ParseRule.add (ptail ts)) >>= fun p =>
        parseExprRec f (ParseRule.compLoop (.binOp l (ppeek ts) p.1 HScriptType.UNKNOWN)) p.2 := by
  simp [parseExprRec, h]

theorem parseAdd_one {t : Token} {A : ExprNode} (h : SimpleFactor t A)
    (f : Nat) (rest : List Token) (hr : (ppeek rest).type ≠ TokenType.PLUS) :
    parseExprRec (f + 2) ParseRule.add (t :: rest) = .ok (A, rest) := by
  rw [show f + 2 = (f + 1) + 1 from rfl, pe_add, parseFactor_simple h f rest,
    except_ok_bind]
  exact pe_addLoop_stop f A rest hr

theorem parseAdd_two {a b : Token} {A B : ExprNode}
    (ha : SimpleFactor a A) (hb : SimpleFactor b B)
    (f : Nat) (rest : List Token) (hr : (ppeek rest).type ≠ TokenType.PLUS) :
    parseExprRec (f + 3) ParseRule.add (a :: plusTok :: b :: rest) =
      .ok (.binOp A plusTok B HScriptType.UNKNOWN, rest) := by
  rw [show f + 3 = (f + 2) + 1 from rfl, pe_add, show f + 2 = (f + 1) + 1 from rfl,
    parseFactor_simple ha (f + 1) (plusTok :: b :: rest), except_ok_bind,
    pe_addLoop_step (f + 1) A (plusTok :: b :: rest) rfl]
  simp only [ppeek, ptail]
  rw [parseFactor_simple hb f rest, except_ok_bind]
  exact pe_addLoop_stop f _ rest hr

theorem parseAdd_three {a b c : Token} {A B C : ExprNode}
    (ha : SimpleFactor a A) (hb : SimpleFactor b B) (hc : SimpleFactor c C)
    (f : Nat) (rest : List Token) (hr : (ppeek rest).type ≠ TokenType.PLUS) :
    parseExprRec (f + 4) ParseRule.add (a :: plusTok :: b :: plusTok :: c :: rest) =
      .ok (.binOp (.binOp A plusTok B HScriptType.UNKNOWN) plusTok C HScriptType.UNKNOWN,
        rest) := by
  rw [show f + 4 = (f + 3) + 1 from rfl, pe_add, show f + 3 = (f + 2) + 1 from rfl,
    parseFactor_simple ha (f + 2) (plusTok :: b :: plusTok :: c :: rest), except_ok_bind,
    pe_addLoop_step (f + 2) A (plusTok :: b :: plusTok :: c :: rest) rfl]
  simp only [ppeek, ptail]
  rw [show f + 2 = (f + 1) + 1 from rfl,
    parseFactor_simple hb (f + 1) (plusTok :: c :: rest), except_ok_bind,
    pe_addLoop_step (f + 1) _ (plusTok :: c :: rest) rfl]
  simp only [ppeek, ptail]
  rw [parseFactor_simple hc f rest, except_ok_bind]
  exact pe_addLoop_stop f _ rest hr

theorem parseExpr_addQeAdd {a b c d : Token} {A B C D : ExprNode}
    (ha : SimpleFactor a A) (hb : SimpleFactor b B)
    (hc : SimpleFactor c C) (hd : SimpleFactor d D)
    (f : Nat) (rest : List Token)
    (hp : (ppeek rest).type ≠ TokenType.PLUS)
    (hq : (ppeek rest).type ≠ TokenType.QUESTION_EQUALS) :
    parseExprRec (f + 6) ParseRule.expr
        (a :: plusTok :: b :: qeTok :: c :: plusTok :: d :: rest) =
      .ok (.binOp (.binOp A plusTok B HScriptType.UNKNOWN) qeTok
        (.binOp C plusTok D HScriptType.UNKNOWN) HScriptType.UNKNOWN, rest) := by
  rw [show f + 6 = (f + 5) + 1 from rfl, pe_expr, show f + 5 = (f + 4) + 1 from rfl,
    pe_comp, show f + 4 = (f + 1) + 3 from rfl,
    parseAdd_two ha hb (f + 1) (qeTok :: c :: plusTok :: d :: rest)
      (by simp [ppeek, qeTok]),
    except_ok_bind]
  rw [show (f + 1) + 3 = (f + 3) + 1 from rfl,
    pe_compLoop_step (f + 3) _ (qeTok :: c :: plusTok :: d :: rest) rfl]
  simp only [ppeek, ptail]
  rw [parseAdd_two hc hd f rest hp, except_ok_bind]
  rw [show f + 3 = (f + 2) + 1 from rfl]
  exact pe_compLoop_stop (f + 2) _ rest hq

theorem parseExpr_threePlus {a b c : Token} {A B C : ExprNode}
    (ha : SimpleFactor a A) (hb : SimpleFactor b B) (hc : SimpleFactor c C)
    (f : Nat) (rest : List Token)
    (hp : (ppeek rest).type ≠ TokenType.PLUS)
    (hq : (ppeek rest).type ≠ TokenType.QUESTION_EQUALS) :
    parseExprRec (f + 6) ParseRule.expr (a :: plusTok :: b :: plusTok :: c :: rest) =
      .ok (.binOp (.binOp A plusTok B HScriptType.UNKNOWN) plusTok C HScriptType.UNKNOWN,
        rest) := by
  rw [show f + 6 = (f + 5) + 1 from rfl, pe_expr, show f + 5 = (f + 4) + 1 from rfl,
    pe_comp, show f + 4 = f + 4 from rfl, parseAdd_three ha hb hc f rest hp,
    except_ok_bind, show f + 4 = (f + 3) + 1 from rfl]
  exact pe_compLoop_stop (f + 3) _ rest hq

theorem parseExpr_threeQe {a b c : Token} {A B C : ExprNode}
    (ha : SimpleFactor a A) (hb : SimpleFactor b B) (hc : SimpleFactor c C)
    (f : Nat) (rest : List Token)
    (hp : (ppeek rest).type ≠ TokenType.PLUS)
    (hq : (ppeek rest).type ≠ TokenType.QUESTION_EQUALS) :
    parseExprRec (f + 6) ParseRule.expr (a :: qeTok :: b :: qeTok :: c :: rest) =
      .ok (.binOp (.binOp A qeTok B HScriptType.UNKNOWN) qeTok C HScriptType.UNKNOWN,
        rest) := by
  rw [show f + 6 = (f + 5) + 1 from rfl, pe_expr, show f + 5 = (f + 4) + 1 from rfl,
    pe_comp, show f + 4 = (f + 2) + 2 from rfl,
    parseAdd_one ha (f + 2) (qeTok :: b :: qeTok :: c :: rest) (by simp [ppeek, qeTok]),
    except_ok_bind, show (f + 2) + 2 = (f + 3) + 1 from rfl,
    pe_compLoop_step (f + 3) _ (qeTok :: b :: qeTok :: c :: rest) rfl]
  simp only [ppeek, ptail]
  rw [show f + 3 = (f + 1) + 2 from rfl,
    parseAdd_one hb (f + 1) (qeTok :: c :: rest) (by simp [ppeek, qeTok]), except_ok_bind,
    show (f + 1) + 2 = (f + 2) + 1 from rfl,
    pe_compLoop_step (f + 2) _ (qeTok :: c :: rest) rfl]
  simp only [ppeek, ptail]
  rw [show f + 2 = f + 2 from rfl, parseAdd_one hc f rest hp, except_ok_bind,
    show f + 2 = (f + 1) + 1 from rfl]
  exact pe_compLoop_stop (f + 1) _ rest hq



/-- One iteration of the `tokenize` loop on a collected (non-EOF,
non-UNKNOWN) token. -/
theorem tokenizeLoop_step (f : Nat) (s : List Char) (t : Token) (r : List Char)
    (h : get_next_token s = (t, r)) (ht1 : t.type ≠ TokenType.END_OF_FILE)
    (ht2 : t.type ≠ TokenType.UNKNOWN) :
    tokenizeLoop (f + 1) s = t :: tokenizeLoop f r := by
  simp [tokenizeLoop, h, ht1, ht2]

/-- The `tokenize` loop stops on `END_OF_FILE` appending the final
`eofToken`. -/
theorem tokenizeLoop_eof (f : Nat) (s : List Char) (r : List Char)
    (h : get_next_token s = (eofToken, r)) :
    tokenizeLoop (f + 1) s = [eofToken] := by
  simp [tokenizeLoop, h, eofToken]

/-- The `tokenize` loop stops on `UNKNOWN`, keeping that token and
appending the final `eofToken`. -/
theorem tokenizeLoop_unknown (f : Nat) (s : List Char) (t : Token) (r : List Char)
    (h : get_next_token s = (t, r)) (ht : t.type = TokenType.UNKNOWN) :
    tokenizeLoop (f + 1) s = [t, eofToken] := by
  simp [tokenizeLoop, h, ht]

/-- `get_next_token` on the empty remainder returns the EOF token. -/
theorem get_next_token_nil : get_next_token [] = (eofToken, []) := rfl

/-! ## Claims -/

/-- C1: the claim states that a `number` declaration with a
`long-number`-typed initializer (e.g. any integer literal) passes
`is_assignable(number, long-number)` and semantic analysis.  The code
refutes this: `is_assignable` only admits a `number` value into an
`lnumber` target (the opposite direction), so `number a := 42;` parses
but is rejected by `analyze` with a type mismatch, contradicting the
analyzer's own comments ("`LNUMBER` ... can be assigned to both") and
making `number` declarations unsatisfiable (every integer literal is
typed `lnumber`). -/
theorem C1_number_decl_with_integer_literal_rejected :
    is_assignable HScriptType.NUMBER HScriptType.LNUMBER = false ∧
    parse_program (tokenize "number a := 42;".toList) =
      .ok ⟨[.varDecl HScriptType.NUMBER ['a'] (.intLit 42 HScriptType.LNUMBER)], []⟩ ∧
    analyze ⟨[.varDecl HScriptType.NUMBER ['a'] (.intLit 42 HScriptType.LNUMBER)], []⟩ =
      .error (SemErr.typeMismatch ['a'] HScriptType.LNUMBER HScriptType.NUMBER) :=
  ⟨rfl, rfl, rfl⟩

/-- C2: the claim states that the pipeline succeeds on
`if (1 ?= 1) says "yes"; else says "no";` and generation renders one
synthesized-brace block per branch.  The parser refutes the first
half: `parse_program` rejects the `if` token at top level (its
statement dispatch only accepts type keywords and `says`), so the
pipeline never reaches generation.  The second conjunct shows the code
generator, applied to the annotated tree this program denotes, does
render one synthesized-brace block per branch with the `else` paired
to that `if` — every other stage implements `if`, the parser alone
omits it. -/
theorem C2_topLevel_if_rejected_at_parse_stage :
    parse_program (tokenize "if (1 ?= 1) says \"yes\"; else says \"no\";".toList) =
      .error (ParseErr.unexpectedTopLevel
        ⟨TokenType.KEYWORD_IF, ['i', 'f'], TokenValue.none⟩) ∧
    genStmt (.ifStmt
        (.binOp (.intLit 1 HScriptType.LNUMBER)
          ⟨TokenType.QUESTION_EQUALS, ['?', '='], TokenValue.none⟩
          (.intLit 1 HScriptType.LNUMBER) HScriptType.LOGIC)
        (.says (.strLit "yes".toList HScriptType.TEXT))
        (some (.says (.strLit "no".toList HScriptType.TEXT)))) =
      .ok ("if ((1LL == 1LL)) \x7b\n        std::cout << (\"yes\") << std::endl;\n    \x7d else \x7b\n        std::cout << (\"no\") << std::endl;\n    \x7d\n".toList) :=
  ⟨rfl, rfl⟩

/-- C8: `number a := true ?= false;` parses, `?=` on two `logic`
operands resolves to `logic`, `logic` is not assignable to `number`,
and semantic analysis rejects the declaration with a type-mismatch
error (fail-fast, before the name would have been inserted into the
symbol table). -/
theorem C8_number_decl_from_logic_comparison_rejected :
    get_binary_op_result_type HScriptType.LOGIC HScriptType.LOGIC TokenType.QUESTION_EQUALS =
      HScriptType.LOGIC ∧
    is_assignable HScriptType.NUMBER HScriptType.LOGIC = false ∧
    parse_program (tokenize "number a := true ?= false;".toList) =
      .ok ⟨[.varDecl HScriptType.NUMBER ['a']
        (.binOp (.boolLit true HScriptType.LOGIC)
          ⟨TokenType.QUESTION_EQUALS, ['?', '='], TokenValue.none⟩
          (.boolLit false HScriptType.LOGIC) HScriptType.UNKNOWN)], []⟩ ∧
    analyze ⟨[.varDecl HScriptType.NUMBER ['a']
        (.binOp (.boolLit true HScriptType.LOGIC)
          ⟨TokenType.QUESTION_EQUALS, ['?', '='], TokenValue.none⟩
          (.boolLit false HScriptType.LOGIC) HScriptType.UNKNOWN)], []⟩ =
      .error (SemErr.typeMismatch ['a'] HScriptType.LOGIC HScriptType.NUMBER) :=
  ⟨rfl, rfl, rfl, rfl⟩

/-- C9: the empty source tokenizes to a lone `END_OF_FILE` token, the
parser produces a program with zero statements and zero
use-declarations, and generation on it still emits the bare
entry-point wrapper (header comment, `int main()` with empty body,
`return 0`) with no includes. -/
theorem C9_empty_source_empty_program_valid_entry_point :
    tokenize [] = [eofToken] ∧
    parse_program (tokenize []) = .ok ⟨[], []⟩ ∧
    generate ⟨[], []⟩ =
      .ok "// Generated by HumanScript Compiler\n\nint main() \x7b\n    return 0;\n\x7d\n".toList :=
  ⟨rfl, rfl, rfl⟩

/-- C6: assignability is not symmetric across the floating/integer
divide.  For any symbol table in which the name is fresh: a `riel`
declaration whose initializer resolves to `lnumber` passes semantic
analysis (and installs the declared type), while an `lnumber`
declaration whose initializer resolves to `riel` fails it with a type
mismatch. -/
theorem C6_assignability_riel_lnumber_asymmetric
    (st : SymTable) (name : List Char) (e1 e2 a1 a2 : ExprNode)
    (hfresh : lookupSym st name = Option.none)
    (h1 : visit_and_get_type st e1 = .ok (a1, HScriptType.LNUMBER))
    (h2 : visit_and_get_type st e2 = .ok (a2, HScriptType.RIEL)) :
    visit_stmt st (.varDecl HScriptType.RIEL name e1) =
      .ok (.varDecl HScriptType.RIEL name a1, (name, HScriptType.RIEL) :: st) ∧
    visit_stmt st (.varDecl HScriptType.LNUMBER name e2) =
      .error (SemErr.typeMismatch name HScriptType.RIEL HScriptType.LNUMBER) := by
  constructor <;> (simp only [visit_stmt, hfresh, h1, h2]; rfl)

/-- Witness for C6 at a concrete instance: `riel x := 5;` succeeds
while `lnumber x := 1.5;` is rejected. -/
theorem C6_assignability_riel_lnumber_asymmetric_witness :
    visit_stmt [] (.varDecl HScriptType.RIEL ['x'] (.intLit 5 HScriptType.LNUMBER)) =
      .ok (.varDecl HScriptType.RIEL ['x'] (.intLit 5 HScriptType.LNUMBER),
        [(['x'], HScriptType.RIEL)]) ∧
    visit_stmt [] (.varDecl HScriptType.LNUMBER ['x'] (.dblLit ['1', '.', '5'] HScriptType.RIEL)) =
      .error (SemErr.typeMismatch ['x'] HScriptType.RIEL HScriptType.LNUMBER) :=
  C6_assignability_riel_lnumber_asymmetric [] ['x']
    (.intLit 5 HScriptType.LNUMBER) (.dblLit ['1', '.', '5'] HScriptType.RIEL)
    (.intLit 5 HScriptType.LNUMBER) (.dblLit ['1', '.', '5'] HScriptType.RIEL)
    rfl rfl rfl

/-- C3: a binary `+` with `text` on exactly one side and any
non-`void`/non-`unknown` type on the other resolves to `text`; code
generation on such an (annotated) node wraps exactly the non-`text`
operand in `std::to_string(...)`; and a `+` whose overall resolved
type is not `text` gets no stringification wrapping on either side. -/
theorem C3_mixed_text_plus_stringifies_exactly_nontext_operand :
    (∀ rt : HScriptType, rt ≠ HScriptType.TEXT → rt ≠ HScriptType.VOID →
      rt ≠ HScriptType.UNKNOWN →
      get_binary_op_result_type HScriptType.TEXT rt TokenType.PLUS = HScriptType.TEXT ∧
      get_binary_op_result_type rt HScriptType.TEXT TokenType.PLUS = HScriptType.TEXT) ∧
    (∀ (l r : ExprNode) (op : Token) (lc rc : List Char), op.type = TokenType.PLUS →
      generate_cpp_for_expression l = .ok lc → generate_cpp_for_expression r = .ok rc →
      (l.ety = HScriptType.TEXT → r.ety ≠ HScriptType.TEXT →
        generate_cpp_for_expression (.binOp l op r HScriptType.TEXT) =
          .ok ('(' :: (lc ++ " + ".toList ++ ("std::to_string(".toList ++ rc ++ [')']) ++ [')']))) ∧
      (l.ety ≠ HScriptType.TEXT → r.ety = HScriptType.TEXT →
        generate_cpp_for_expression (.binOp l op r HScriptType.TEXT) =
          .ok ('(' :: (("std::to_string(".toList ++ lc ++ [')']) ++ " + ".toList ++ rc ++ [')']))) ∧
      (∀ ety : HScriptType, ety ≠ HScriptType.TEXT →
        generate_cpp_for_expression (.binOp l op r ety) =
          .ok ('(' :: (lc ++ " + ".toList ++ rc ++ [')'])))) := by
  constructor
  · intro rt h1 h2 h3
    cases rt <;> simp_all [get_binary_op_result_type]
  · intro l r op lc rc hop hl hr
    refine ⟨?_, ?_, ?_⟩
    · intro hlt hrt
      simp [generate_cpp_for_expression, hl, hr, hop, hlt, hrt, except_ok_bind]
    · intro hlt hrt
      simp [generate_cpp_for_expression, hl, hr, hop, hlt, hrt, except_ok_bind]
    · intro ety hety
      simp [generate_cpp_for_expression, hl, hr, hop, hety, except_ok_bind]

/-- Witness for C3 at concrete instances: the typing half at
`rt := lnumber`, and the generation half at `"Hi " + 42` (the numeric
operand, and only it, is wrapped) plus a numeric-only `1 + 2` (no
wrapping). -/
theorem C3_mixed_text_plus_stringifies_exactly_nontext_operand_witness :
    (get_binary_op_result_type HScriptType.TEXT HScriptType.LNUMBER TokenType.PLUS =
        HScriptType.TEXT ∧
      get_binary_op_result_type HScriptType.LNUMBER HScriptType.TEXT TokenType.PLUS =
        HScriptType.TEXT) ∧
    generate_cpp_for_expression
        (.binOp (.strLit "Hi ".toList HScriptType.TEXT)
          ⟨TokenType.PLUS, ['+'], TokenValue.none⟩
          (.intLit 42 HScriptType.LNUMBER) HScriptType.TEXT) =
      .ok "(\"Hi \" + std::to_string(42LL))".toList ∧
    generate_cpp_for_expression
        (.binOp (.intLit 1 HScriptType.LNUMBER)
          ⟨TokenType.PLUS, ['+'], TokenValue.none⟩
          (.intLit 2 HScriptType.LNUMBER) HScriptType.LNUMBER) =
      .ok "(1LL + 2LL)".toList := by
  refine ⟨(C3_mixed_text_plus_stringifies_exactly_nontext_operand.1 HScriptType.LNUMBER
    (by decide) (by decide) (by decide)), ?_, ?_⟩
  · have h := (C3_mixed_text_plus_stringifies_exactly_nontext_operand.2
      (.strLit "Hi ".toList HScriptType.TEXT) (.intLit 42 HScriptType.LNUMBER)
      ⟨TokenType.PLUS, ['+'], TokenValue.none⟩
      "\"Hi \"".toList "42LL".toList rfl rfl rfl).1 rfl (by decide)
    exact h.trans rfl
  · have h := (C3_mixed_text_plus_stringifies_exactly_nontext_operand.2
      (.intLit 1 HScriptType.LNUMBER) (.intLit 2 HScriptType.LNUMBER)
      ⟨TokenType.PLUS, ['+'], TokenValue.none⟩
      "1LL".toList "2LL".toList rfl rfl rfl).2.2 HScriptType.LNUMBER (by decide)
    exact h.trans rfl

/-- C7: for factor tokens `a b c d` (identifiers or literals),
`a + b ?= c + d` parses with a `?=` root and a `+` node on each side,
i.e. `(a+b) ?= (c+d)` — `?=` binds weaker than `+` — and chains of the
same operator associate to the left: `a + b + c` parses as `(a+b)+c`
and `a ?= b ?= c` as `(a?=b)?=c`. -/
theorem C7_precedence_and_left_associativity (a b c d : Token) (A B C D : ExprNode)
    (ha : SimpleFactor a A) (hb : SimpleFactor b B)
    (hc : SimpleFactor c C) (hd : SimpleFactor d D) :
    parse_expression [a, plusTok, b, qeTok, c, plusTok, d, eofToken] =
      .ok (.binOp (.binOp A plusTok B HScriptType.UNKNOWN) qeTok
        (.binOp C plusTok D HScriptType.UNKNOWN) HScriptType.UNKNOWN, [eofToken]) ∧
    parse_expression [a, plusTok, b, plusTok, c, eofToken] =
      .ok (.binOp (.binOp A plusTok B HScriptType.UNKNOWN) plusTok C HScriptType.UNKNOWN,
        [eofToken]) ∧
    parse_expression [a, qeTok, b, qeTok, c, eofToken] =
      .ok (.binOp (.binOp A qeTok B HScriptType.UNKNOWN) qeTok C HScriptType.UNKNOWN,
        [eofToken]) := by
  refine ⟨?_, ?_, ?_⟩
  · rw [show parse_expression [a, plusTok, b, qeTok, c, plusTok, d, eofToken] =
      parseExprRec (42 + 6) ParseRule.expr [a, plusTok, b, qeTok, c, plusTok, d, eofToken]
      from rfl]
    exact parseExpr_addQeAdd ha hb hc hd 42 [eofToken] (by decide) (by decide)
  · rw [show parse_expression [a, plusTok, b, plusTok, c, eofToken] =
      parseExprRec (34 + 6) ParseRule.expr [a, plusTok, b, plusTok, c, eofToken] from rfl]
    exact parseExpr_threePlus ha hb hc 34 [eofToken] (by decide) (by decide)
  · rw [show parse_expression [a, qeTok, b, qeTok, c, eofToken] =
      parseExprRec (34 + 6) ParseRule.expr [a, qeTok, b, qeTok, c, eofToken] from rfl]
    exact parseExpr_threeQe ha hb hc 34 [eofToken] (by decide) (by decide)

/-- Witness for C7 at concrete tokens (`1 + 2 ?= x + 3`, `1 + 2 + x`,
`1 ?= 2 ?= x`, with the token payloads the lexer produces). -/
theorem C7_precedence_and_left_associativity_witness :
    parse_expression [⟨TokenType.INTEGER_LITERAL, ['1'], TokenValue.int 1⟩, plusTok,
        ⟨TokenType.INTEGER_LITERAL, ['2'], TokenValue.int 2⟩, qeTok,
        ⟨TokenType.IDENTIFIER, ['x'], TokenValue.str ['x']⟩, plusTok,
        ⟨TokenType.INTEGER_LITERAL, ['3'], TokenValue.int 3⟩, eofToken] =
      .ok (.binOp
        (.binOp (.intLit 1 HScriptType.LNUMBER) plusTok (.intLit 2 HScriptType.LNUMBER)
          HScriptType.UNKNOWN)
        qeTok
        (.binOp (.ident ['x'] HScriptType.UNKNOWN) plusTok (.intLit 3 HScriptType.LNUMBER)
          HScriptType.UNKNOWN)
        HScriptType.UNKNOWN, [eofToken]) ∧
    parse_expression [⟨TokenType.INTEGER_LITERAL, ['1'], TokenValue.int 1⟩, plusTok,
        ⟨TokenType.INTEGER_LITERAL, ['2'], TokenValue.int 2⟩, plusTok,
        ⟨TokenType.IDENTIFIER, ['x'], TokenValue.str ['x']⟩, eofToken] =
      .ok (.binOp
        (.binOp (.intLit 1 HScriptType.LNUMBER) plusTok (.intLit 2 HScriptType.LNUMBER)
          HScriptType.UNKNOWN)
        plusTok (.ident ['x'] HScriptType.UNKNOWN) HScriptType.UNKNOWN, [eofToken]) ∧
    parse_expression [⟨TokenType.INTEGER_LITERAL, ['1'], TokenValue.int 1⟩, qeTok,
        ⟨TokenType.INTEGER_LITERAL, ['2'], TokenValue.int 2⟩, qeTok,
        ⟨TokenType.IDENTIFIER, ['x'], TokenValue.str ['x']⟩, eofToken] =
      .ok (.binOp
        (.binOp (.intLit 1 HScriptType.LNUMBER) qeTok (.intLit 2 HScriptType.LNUMBER)
          HScriptType.UNKNOWN)
        qeTok (.ident ['x'] HScriptType.UNKNOWN) HScriptType.UNKNOWN, [eofToken]) :=
  C7_precedence_and_left_associativity
    ⟨TokenType.INTEGER_LITERAL, ['1'], TokenValue.int 1⟩
    ⟨TokenType.INTEGER_LITERAL, ['2'], TokenValue.int 2⟩
    ⟨TokenType.IDENTIFIER, ['x'], TokenValue.str ['x']⟩
    ⟨TokenType.INTEGER_LITERAL, ['3'], TokenValue.int 3⟩
    (.intLit 1 HScriptType.LNUMBER) (.intLit 2 HScriptType.LNUMBER)
    (.ident ['x'] HScriptType.UNKNOWN) (.intLit 3 HScriptType.LNUMBER)
    (SimpleFactor.int32 1 ['1']) (SimpleFactor.int32 2 ['2'])
    (SimpleFactor.idn ['x'] ['x']) (SimpleFactor.int32 3 ['3'])

/-- C10: whenever the scanner's next token starts at a `':'` (or a
`'?'`) that is not immediately followed by `'='`, `get_next_token`
consumes that single character and returns an `UNKNOWN` token carrying
it (the C++ `switch` falls through to the no-match path), and the
token stream from that point is exactly that `UNKNOWN` token followed
by `END_OF_FILE`: `tokenize` stops there and no later character of the
source is tokenized. -/
theorem C10_unmatched_colon_or_question_stops_tokenize (s rest : List Char) (c : Char)
    (hc : c = ':' ∨ c = '?')
    (hs : skip_whitespace_and_comments s = c :: rest)
    (hne : rest.head? ≠ some '=') :
    get_next_token s = (⟨TokenType.UNKNOWN, [c], TokenValue.none⟩, rest) ∧
    (∀ f : Nat, tokenizeLoop (f + 1) s = [⟨TokenType.UNKNOWN, [c], TokenValue.none⟩, eofToken]) ∧
    tokenize s = [⟨TokenType.UNKNOWN, [c], TokenValue.none⟩, eofToken] := by
  have h1 : get_next_token s = (⟨TokenType.UNKNOWN, [c], TokenValue.none⟩, rest) := by
    cases hc with
    | inl h => subst h; simp [get_next_token, hs, hne, nulChar, isAlphaC, isDigitC,
        headIsDigit, lbraceChar, rbraceChar]
    | inr h => subst h; simp [get_next_token, hs, hne, nulChar, isAlphaC, isDigitC,
        headIsDigit, lbraceChar, rbraceChar]
  have h2 : ∀ f : Nat, tokenizeLoop (f + 1) s =
      [⟨TokenType.UNKNOWN, [c], TokenValue.none⟩, eofToken] := by
    intro f
    simp [tokenizeLoop, h1]
  exact ⟨h1, h2, h2 s.length⟩

/-- Witness for C10 at the concrete sources `": 5;"` and `"x ? y"`:
the bare `':'` (resp. `'?'`) becomes the final `UNKNOWN` token and the
`" 5;"` (resp. `" y"`) after it is never tokenized. -/
theorem C10_unmatched_colon_or_question_stops_tokenize_witness :
    tokenize ": 5;".toList =
      [⟨TokenType.UNKNOWN, [':'], TokenValue.none⟩, eofToken] ∧
    tokenize "? y".toList =
      [⟨TokenType.UNKNOWN, ['?'], TokenValue.none⟩, eofToken] :=
  ⟨(C10_unmatched_colon_or_question_stops_tokenize ": 5;".toList " 5;".toList ':'
      (Or.inl rfl) rfl (by decide)).2.2,
    (C10_unmatched_colon_or_question_stops_tokenize "? y".toList " y".toList '?'
      (Or.inr rfl) rfl (by decide)).2.2⟩

/-- C4 counterexample: the claim says an unterminated string literal is
a lex error that fails tokenization "rather than returning a
string-literal token covering the text up to end-of-input".  On the
source `"abc` (opening quote never closed) the code does exactly the
latter: `tokenize` returns a `STRING_LITERAL` token covering the text
up to end-of-input (with a closing quote appended to its text field)
followed by `END_OF_FILE`, and no failure occurs (the C++ code only
prints a warning to `std::cerr`). -/
theorem C4_counterexample_unterminated_string_tokenizes :
    tokenize "\"abc".toList =
      [⟨TokenType.STRING_LITERAL, "\"abc\"".toList, TokenValue.str "abc".toList⟩, eofToken] :=
  rfl

/-- C4 amended: whenever the scanner's next token starts at a `'"'`
whose string scan reaches end-of-input (no closing quote), the lexer
does not fail: it returns a `STRING_LITERAL` token whose value is the
scanned remainder and whose text appends a closing quote, consuming
the whole rest of the input, and `tokenize` then terminates normally
with the `END_OF_FILE` token. -/
theorem C4_amended_unterminated_string_best_effort_token (s cs : List Char)
    (hs : skip_whitespace_and_comments s = '"' :: cs)
    (hterm : (scanStr cs).2 = []) :
    get_next_token s =
      (⟨TokenType.STRING_LITERAL, '"' :: ((scanStr cs).1 ++ ['"']),
        TokenValue.str (scanStr cs).1⟩, []) ∧
    (∀ f : Nat, tokenizeLoop (f + 2) s =
      [⟨TokenType.STRING_LITERAL, '"' :: ((scanStr cs).1 ++ ['"']),
        TokenValue.str (scanStr cs).1⟩, eofToken]) ∧
    tokenize s =
      [⟨TokenType.STRING_LITERAL, '"' :: ((scanStr cs).1 ++ ['"']),
        TokenValue.str (scanStr cs).1⟩, eofToken] := by
  have h1 : get_next_token s =
      (⟨TokenType.STRING_LITERAL, '"' :: ((scanStr cs).1 ++ ['"']),
        TokenValue.str (scanStr cs).1⟩, []) := by
    simp [get_next_token, hs, make_string_literal, hterm, nulChar, isAlphaC, isDigitC,
      headIsDigit]
  have h2 : ∀ f : Nat, tokenizeLoop (f + 2) s =
      [⟨TokenType.STRING_LITERAL, '"' :: ((scanStr cs).1 ++ ['"']),
        TokenValue.str (scanStr cs).1⟩, eofToken] := by
    intro f
    rw [show f + 2 = (f + 1) + 1 from rfl,
      tokenizeLoop_step (f + 1) s _ [] h1 (by simp) (by simp),
      tokenizeLoop_eof f [] [] get_next_token_nil]
  have hne : s ≠ [] := by
    intro h
    rw [h] at hs
    exact absurd hs (by simp [skip_whitespace_and_comments, skipWSAux])
  obtain ⟨n, hn⟩ : ∃ n, s.length = n + 1 :=
    ⟨s.length - 1, by cases s with | nil => exact absurd rfl hne | cons a l => simp⟩
  refine ⟨h1, h2, ?_⟩
  rw [show tokenize s = tokenizeLoop (s.length + 1) s from rfl, hn]
  exact h2 n

/-- Witness for the amended C4 at the concrete source `"abc`. -/
theorem C4_amended_unterminated_string_best_effort_token_witness :
    get_next_token "\"abc".toList =
      (⟨TokenType.STRING_LITERAL, "\"abc\"".toList, TokenValue.str "abc".toList⟩, []) ∧
    (∀ f : Nat, tokenizeLoop (f + 2) "\"abc".toList =
      [⟨TokenType.STRING_LITERAL, "\"abc\"".toList, TokenValue.str "abc".toList⟩, eofToken]) ∧
    tokenize "\"abc".toList =
      [⟨TokenType.STRING_LITERAL, "\"abc\"".toList, TokenValue.str "abc".toList⟩, eofToken] :=
  C4_amended_unterminated_string_best_effort_token "\"abc".toList "abc".toList rfl rfl


theorem skipWSAux_length (s : List Char) : ∀ m : Bool, (skipWSAux m s).length ≤ s.length := by
  induction s with
  | nil => intro m; cases m <;> simp [skipWSAux]
  | cons c cs ih =>
    intro m
    cases m with
    | true =>
      by_cases h1 : c = '\n'
      · simp only [skipWSAux, if_pos h1]
        exact le_trans (ih false) (Nat.le_succ _)
      · by_cases h2 : c = nulChar
        · simp only [skipWSAux, if_neg h1, if_pos h2]
          simp
        · simp only [skipWSAux, if_neg h1, if_neg h2]
          exact le_trans (ih true) (Nat.le_succ _)
    | false =>
      by_cases h1 : isSpaceC c
      · simp only [skipWSAux, if_pos h1]
        exact le_trans (ih false) (Nat.le_succ _)
      · by_cases h2 : c = '/' ∧ cs.head? = some '/'
        · simp only [skipWSAux, if_neg h1, if_pos h2]
          exact le_trans (ih true) (Nat.le_succ _)
        · simp [skipWSAux, h1, h2]

theorem scanIdent_rest_length (s : List Char) : (scanIdent s).2.length ≤ s.length := by
  induction s with
  | nil => simp [scanIdent]
  | cons c cs ih =>
    by_cases h : isAlnumC c ∨ c = '_'
    · simp only [scanIdent, if_pos h]
      exact le_trans ih (Nat.le_succ _)
    · simp [scanIdent, h]

theorem scanNum_rest_length (s : List Char) :
    ∀ isd : Bool, (scanNum isd s).2.2.length ≤ s.length := by
  induction s with
  | nil => intro isd; simp [scanNum]
  | cons c cs ih =>
    intro isd
    by_cases h1 : isDigitC c
    · simp only [scanNum, if_pos h1]
      exact le_trans (ih isd) (Nat.le_succ _)
    · by_cases h2 : c = '.' ∧ isd = false ∧ headIsDigit cs
      · simp only [scanNum, if_neg h1, if_pos h2]
        exact le_trans (ih true) (Nat.le_succ _)
      · simp [scanNum, h1, h2]

theorem scanStr_cons (c : Char) (cs : List Char) :
    scanStr (c :: cs) =
      if c = '"' ∨ c = nulChar then ([], c :: cs)
      else if c = '\\' then
        (match cs with
         | [] => ([nulChar], [])
         | d :: ds =>
           ((if d = 'n' then '\n' else if d = 't' then '\t'
             else if d = '"' then '"' else if d = '\\' then '\\' else d) :: (scanStr ds).1,
            (scanStr ds).2))
      else (c :: (scanStr cs).1, (scanStr cs).2) := by
  rw [scanStr.eq_def]

theorem scanStr_stop (c : Char) (cs : List Char) (h : c = '"' ∨ c = nulChar) :
    scanStr (c :: cs) = ([], c :: cs) := by
  rw [scanStr_cons, if_pos h]

theorem scanStr_esc (c d : Char) (ds : List Char) (h1 : ¬(c = '"' ∨ c = nulChar))
    (h2 : c = '\\') :
    scanStr (c :: d :: ds) =
      ((if d = 'n' then '\n' else if d = 't' then '\t'
        else if d = '"' then '"' else if d = '\\' then '\\' else d) :: (scanStr ds).1,
       (scanStr ds).2) := by
  rw [scanStr_cons, if_neg h1, if_pos h2]

theorem scanStr_plain (c : Char) (cs : List Char) (h1 : ¬(c = '"' ∨ c = nulChar))
    (h2 : ¬ c = '\\') :
    scanStr (c :: cs) = (c :: (scanStr cs).1, (scanStr cs).2) := by
  rw [scanStr_cons, if_neg h1, if_neg h2]

theorem scanStr_rest_length (s : List Char) : (scanStr s).2.length ≤ s.length := by
  induction s using scanStr.induct with
  | case1 => simp [scanStr]
  | case2 d tail h =>
    rw [scanStr_stop d tail h]
  | case3 h => decide
  | case4 d tail h ih =>
    rw [scanStr_esc '\\' d tail h rfl]
    simp only [List.length_cons]
    exact le_trans ih (by omega)
  | case5 d tail h1 h2 ih =>
    rw [scanStr_plain d tail h1 h2]
    simp only [List.length_cons]
    exact le_trans ih (by omega)


theorem make_number_rest (s : List Char) : (make_number s).2 = (scanNum false s).2.2 := by
  unfold make_number
  by_cases hd : (scanNum false s).2.1 = true
  · simp [hd]
  · simp [hd]
    split
    · rfl
    · split <;> rfl

theorem make_string_literal_rest (s : List Char) :
    (make_string_literal s).2.length ≤ s.tail.length := by
  unfold make_string_literal
  by_cases h : (scanStr s.tail).2.head? = some '"'
  · simp only [if_pos h]
    exact le_trans (by cases hq : (scanStr s.tail).2 <;> simp [hq])
      (scanStr_rest_length s.tail)
  · simp only [if_neg h]
    exact scanStr_rest_length s.tail

theorem get_next_token_progress (s : List Char)
    (h : (get_next_token s).1.type ≠ TokenType.END_OF_FILE) :
    (get_next_token s).2.length < s.length := by
  have hlen : (skip_whitespace_and_comments s).length ≤ s.length := skipWSAux_length s false
  rcases hu : skip_whitespace_and_comments s with _ | ⟨c, cs⟩
  · exfalso
    apply h
    simp [get_next_token, hu, eofToken]
  · rw [hu] at hlen
    simp only [List.length_cons] at hlen
    simp only [get_next_token, hu] at h ⊢
    by_cases h1 : c = nulChar
    · exfalso
      apply h
      simp [h1, eofToken]
    · simp only [if_neg h1] at h ⊢
      by_cases h2 : isAlphaC c ∨ c = '_'
      · have h2' : isAlnumC c ∨ c = '_' := by
          rcases h2 with ha | ha
          · exact Or.inl (by simp [isAlnumC, ha])
          · exact Or.inr ha
        simp only [if_pos h2]
        rw [show scanIdent (c :: cs) = (c :: (scanIdent cs).1, (scanIdent cs).2) from by
          simp [scanIdent, h2']]
        have := scanIdent_rest_length cs
        show (scanIdent cs).2.length < s.length
        omega
      · simp only [if_neg h2] at h ⊢
        by_cases h3 : isDigitC c ∨ (c = '.' ∧ headIsDigit cs)
        · simp only [if_pos h3]
          rw [make_number_rest]
          have hr : (scanNum false (c :: cs)).2.2.length ≤ cs.length := by
            rcases h3 with hd | ⟨hdot, hnext⟩
            · rw [show scanNum false (c :: cs) =
                (c :: (scanNum false cs).1, (scanNum false cs).2) from by
                  simp [scanNum, hd]]
              exact scanNum_rest_length cs false
            · have hnd : ¬ isDigitC c = true := by
                rw [hdot]
                decide
              rw [show scanNum false (c :: cs) =
                (c :: (scanNum true cs).1, (scanNum true cs).2) from by
                  simp [scanNum, hdot, hnext, show isDigitC '.' = false from rfl]]
              exact scanNum_rest_length cs true
          omega
        · clear h
          simp only [if_neg h3]
          have htail : cs.tail.length ≤ cs.length := by
            cases cs <;> simp
          by_cases h4 : c = '"'
          · simp only [if_pos h4]
            have := make_string_literal_rest (c :: cs)
            simp only [List.tail_cons] at this
            omega
          · simp only [if_neg h4]
            by_cases h5 : c = ':'
            · simp only [if_pos h5]
              by_cases h6 : cs.head? = some '='
              · simp only [if_pos h6]
                omega
              · simp only [if_neg h6]
                omega
            · simp only [if_neg h5]
              by_cases h7 : c = '?'
              · simp only [if_pos h7]
                by_cases h8 : cs.head? = some '='
                · simp only [if_pos h8]
                  omega
                · simp only [if_neg h8]
                  omega
              · simp only [if_neg h7]
                by_cases h9 : c = '+'
                · simp only [if_pos h9]
                  show cs.length < s.length
                  omega
                · simp only [if_neg h9]
                  by_cases h10 : c = ';'
                  · simp only [if_pos h10]
                    show cs.length < s.length
                    omega
                  · simp only [if_neg h10]
                    by_cases h11 : c = '('
                    · simp only [if_pos h11]
                      show cs.length < s.length
                      omega
                    · simp only [if_neg h11]
                      by_cases h12 : c = ')'
                      · simp only [if_pos h12]
                        show cs.length < s.length
                        omega
                      · simp only [if_neg h12]
                        by_cases h13 : c = lbraceChar
                        · simp only [if_pos h13]
                          show cs.length < s.length
                          omega
                        · simp only [if_neg h13]
                          by_cases h14 : c = rbraceChar
                          · simp only [if_pos h14]
                            show cs.length < s.length
                            omega
                          · simp only [if_neg h14]
                            by_cases h15 : c = '<'
                            · simp only [if_pos h15]
                              show cs.length < s.length
                              omega
                            · simp only [if_neg h15]
                              by_cases h16 : c = '>'
                              · simp only [if_pos h16]
                                show cs.length < s.length
                                omega
                              · simp only [if_neg h16]
                                by_cases h17 : c = '.'
                                · simp only [if_pos h17]
                                  show cs.length < s.length
                                  omega
                                · simp only [if_neg h17]
                                  by_cases h18 : c = '/'
                                  · simp only [if_pos h18]
                                    show cs.length < s.length
                                    omega
                                  · simp only [if_neg h18]
                                    show cs.length < s.length
                                    omega


theorem takeWhile_all (p : Char → Bool) (l : List Char) :
    (l.takeWhile p).all p = true := by
  induction l with
  | nil => simp
  | cons c cs ih =>
    by_cases h : p c
    · simp [List.takeWhile_cons, h, ih]
    · simp [List.takeWhile_cons, h]

theorem takeWhile_append_stop (p : Char → Bool) (a b : List Char) (x : Char)
    (ha : a.all p = true) (hx : ¬ p x = true) :
    List.takeWhile p (a ++ x :: b) = a := by
  induction a with
  | nil => simp [List.takeWhile_cons, hx]
  | cons c cs ih =>
    simp only [List.all_cons, Bool.and_eq_true] at ha
    simp [List.takeWhile_cons, ha.1, ih ha.2]

theorem scanIdent_all (l : List Char) : (scanIdent l).1.all isIdentChar = true := by
  induction l with
  | nil => simp [scanIdent]
  | cons c cs ih =>
    by_cases h : isAlnumC c ∨ c = '_'
    · simp only [scanIdent, if_pos h, List.all_cons, Bool.and_eq_true]
      exact ⟨by simp [isIdentChar, h], ih⟩
    · simp [scanIdent, h]

theorem scanNum_true_eq (l : List Char) :
    scanNum true l = (l.takeWhile isDigitC, true, l.dropWhile isDigitC) := by
  induction l with
  | nil => simp [scanNum]
  | cons c cs ih =>
    by_cases h : isDigitC c
    · simp [scanNum, h, ih, List.takeWhile_cons, List.dropWhile_cons]
    · simp [scanNum, h, List.takeWhile_cons, List.dropWhile_cons]

theorem scanNum_false_shape (l : List Char) :
    ((scanNum false l).2.1 = false ∧ (scanNum false l).1 = l.takeWhile isDigitC) ∨
    ((scanNum false l).2.1 = true ∧ ∃ a b, (scanNum false l).1 = a ++ '.' :: b ∧
      a.all isDigitC = true ∧ b ≠ [] ∧ b.all isDigitC = true) := by
  induction l with
  | nil => left; simp [scanNum]
  | cons c cs ih =>
    by_cases h1 : isDigitC c
    · rcases ih with ⟨hf, ht⟩ | ⟨hf, a, b, ht, ha, hb, hball⟩
      · left
        simp [scanNum, h1, hf, ht, List.takeWhile_cons]
      · right
        refine ⟨by simp [scanNum, h1, hf], c :: a, b, ?_, ?_, hb, hball⟩
        · simp [scanNum, h1, ht]
        · simp [ha, h1]
    · by_cases h2 : c = '.' ∧ headIsDigit cs
      · obtain ⟨hc, hnext⟩ := h2
        subst hc
        right
        have hs : scanNum false ('.' :: cs) =
            ('.' :: (scanNum true cs).1, (scanNum true cs).2) := by
          simp [scanNum, hnext, show isDigitC '.' = false from rfl]
        refine ⟨by simp [hs, scanNum_true_eq], [], cs.takeWhile isDigitC, ?_, by simp, ?_, ?_⟩
        · simp [hs, scanNum_true_eq]
        · rcases cs with _ | ⟨d, ds⟩
          · exact absurd hnext (by simp [headIsDigit])
          · have hd : isDigitC d = true := hnext
            simp [List.takeWhile_cons, hd]
        · exact takeWhile_all isDigitC cs
      · left
        simp [scanNum, h1, h2, List.takeWhile_cons]


set_option maxHeartbeats 1600000 in
theorem keyword_token_ok (t : List Char) (k : TokenType)
    (hk : keywordLookup t = some k) (v : TokenValue) :
    tokenTextOK ⟨k, t, v⟩ = true := by
  have hk2 := hk
  unfold keywordLookup at hk2
  repeat' split at hk2
  all_goals cases hk2
  all_goals simp [tokenTextOK, hk]

theorem make_identifier_or_keyword_ok (t : List Char)
    (h1 : headIsIdentStart t = true) (h2 : t.all isIdentChar = true) :
    tokenTextOK (make_identifier_or_keyword t) = true := by
  unfold make_identifier_or_keyword
  rcases hk : keywordLookup t with _ | k
  · simp [tokenTextOK, h1, h2, hk]
  · simp only [hk]
    split
    · exact keyword_token_ok t k hk _
    · split
      · exact keyword_token_ok t k hk _
      · exact keyword_token_ok t k hk _

theorem make_number_text_ok (c : Char) (cs : List Char)
    (hg : isDigitC c = true ∨ (c = '.' ∧ headIsDigit cs = true)) :
    tokenTextOK (make_number (c :: cs)).1 = true := by
  rcases scanNum_false_shape (c :: cs) with ⟨hf, ht⟩ | ⟨hf, a, b, ht, ha, hb, hball⟩
  · have hd : isDigitC c = true := by
      rcases hg with hd | ⟨hdot, hnext⟩
      · exact hd
      · exfalso
        subst hdot
        rw [show scanNum false ('.' :: cs) =
          ('.' :: (scanNum true cs).1, (scanNum true cs).2) from by
            simp [scanNum, hnext, show isDigitC '.' = false from rfl]] at hf
        rw [scanNum_true_eq] at hf
        simp at hf
    unfold make_number
    simp only [hf, if_false, Bool.false_eq_true]
    split
    · simp [tokenTextOK, ht, List.takeWhile_cons, hd, takeWhile_all]
    · split
      · simp [tokenTextOK, ht, List.takeWhile_cons, hd, takeWhile_all]
      · simp [tokenTextOK, ht, List.takeWhile_cons, hd, takeWhile_all]
  · unfold make_number
    simp only [hf, if_true]
    simp only [tokenTextOK, ht]
    unfold isDoubleText
    rw [takeWhile_append_stop isDigitC a b '.' ha (by decide)]
    rw [List.drop_left]
    simp [hb, hball]

theorem make_string_literal_text_ok (s : List Char) :
    tokenTextOK (make_string_literal s).1 = true := by
  unfold make_string_literal tokenTextOK
  simp

theorem get_next_token_text_ok (s : List Char) :
    tokenTextOK (get_next_token s).1 = true := by
  rcases hu : skip_whitespace_and_comments s with _ | ⟨c, cs⟩
  · simp [get_next_token, hu]
    decide
  · simp only [get_next_token, hu]
    by_cases h1 : c = nulChar
    · simp only [if_pos h1]
      decide
    · simp only [if_neg h1]
      by_cases h2 : isAlphaC c ∨ c = '_'
      · have h2' : isAlnumC c ∨ c = '_' := by
          rcases h2 with ha | ha
          · exact Or.inl (by simp [isAlnumC, ha])
          · exact Or.inr ha
        simp only [if_pos h2]
        rw [show scanIdent (c :: cs) = (c :: (scanIdent cs).1, (scanIdent cs).2) from by
          simp [scanIdent, h2']]
        apply make_identifier_or_keyword_ok
        · simp [headIsIdentStart, h2]
        · simp only [List.all_cons, Bool.and_eq_true]
          exact ⟨by simp [isIdentChar, h2'], scanIdent_all cs⟩
      · simp only [if_neg h2]
        by_cases h3 : isDigitC c ∨ (c = '.' ∧ headIsDigit cs)
        · simp only [if_pos h3]
          exact make_number_text_ok c cs h3
        · simp only [if_neg h3]
          by_cases h4 : c = '"'
          · simp only [if_pos h4]
            exact make_string_literal_text_ok (c :: cs)
          · simp only [if_neg h4]
            by_cases h5 : c = ':'
            · simp only [if_pos h5]
              by_cases h6 : cs.head? = some '='
              · simp only [if_pos h6]
                rfl
              · simp only [if_neg h6]
                rfl
            · simp only [if_neg h5]
              by_cases h7 : c = '?'
              · simp only [if_pos h7]
                by_cases h8 : cs.head? = some '='
                · simp only [if_pos h8]
                  rfl
                · simp only [if_neg h8]
                  rfl
              · simp only [if_neg h7]
                by_cases h9 : c = '+'
                · simp only [if_pos h9]
                  rfl
                · simp only [if_neg h9]
                  by_cases h10 : c = ';'
                  · simp only [if_pos h10]
                    rfl
                  · simp only [if_neg h10]
                    by_cases h11 : c = '('
                    · simp only [if_pos h11]
                      rfl
                    · simp only [if_neg h11]
                      by_cases h12 : c = ')'
                      · simp only [if_pos h12]
                        rfl
                      · simp only [if_neg h12]
                        by_cases h13 : c = lbraceChar
                        · simp only [if_pos h13]
                          rfl
                        · simp only [if_neg h13]
                          by_cases h14 : c = rbraceChar
                          · simp only [if_pos h14]
                            rfl
                          · simp only [if_neg h14]
                            by_cases h15 : c = '<'
                            · simp only [if_pos h15]
                              rfl
                            · simp only [if_neg h15]
                              by_cases h16 : c = '>'
                              · simp only [if_pos h16]
                                rfl
                              · simp only [if_neg h16]
                                by_cases h17 : c = '.'
                                · simp only [if_pos h17]
                                  rfl
                                · simp only [if_neg h17]
                                  by_cases h18 : c = '/'
                                  · simp only [if_pos h18]
                                    rfl
                                  · simp only [if_neg h18]
                                    rfl


theorem tokenizeLoop_eof_type (f : Nat) (s : List Char) (t : Token) (r : List Char)
    (h : get_next_token s = (t, r)) (ht : t.type = TokenType.END_OF_FILE) :
    tokenizeLoop (f + 1) s = [eofToken] := by
  simp [tokenizeLoop, h, ht]

theorem tokenizeLoop_shape :
    ∀ (f : Nat) (s : List Char), s.length < f →
    ∃ real, tokenizeLoop f s = real ++ [eofToken] ∧
      ∀ t ∈ real, t.type ≠ TokenType.END_OF_FILE ∧ tokenTextOK t = true := by
  intro f
  induction f with
  | zero => intro s h; omega
  | succ f ih =>
    intro s hs
    rcases hg : get_next_token s with ⟨t, r⟩
    by_cases h1 : t.type = TokenType.END_OF_FILE
    · exact ⟨[], by rw [tokenizeLoop_eof_type f s t r hg h1]; rfl, by simp⟩
    · by_cases h2 : t.type = TokenType.UNKNOWN
      · refine ⟨[t], by rw [tokenizeLoop_unknown f s t r hg h2]; rfl, ?_⟩
        intro x hx
        simp only [List.mem_singleton] at hx
        subst hx
        refine ⟨h1, ?_⟩
        have := get_next_token_text_ok s
        rw [hg] at this
        exact this
      · have hprog := get_next_token_progress s (by rw [hg]; exact h1)
        rw [hg] at hprog
        obtain ⟨real, hr1, hr2⟩ := ih r (by simp at hprog; omega)
        refine ⟨t :: real, ?_, ?_⟩
        · rw [tokenizeLoop_step f s t r hg h1 h2, hr1]
          rfl
        · intro x hx
          rcases List.mem_cons.mp hx with hx | hx
          · subst hx
            refine ⟨h1, ?_⟩
            have := get_next_token_text_ok s
            rw [hg] at this
            exact this
          · exact hr2 x hx

theorem tokenize_shape (s : List Char) :
    ∃ real, tokenize s = real ++ [eofToken] ∧
      ∀ t ∈ real, t.type ≠ TokenType.END_OF_FILE ∧ tokenTextOK t = true :=
  tokenizeLoop_shape (s.length + 1) s (by omega)



theorem scanIdent_stop (rest : List Char) (h : restStops rest) :
    scanIdent rest = ([], rest) := by
  rcases h with h | h
  · subst h
    rfl
  · rcases rest with _ | ⟨c, cs⟩
    · rfl
    · simp only [List.head?_cons, Option.some.injEq] at h
      subst h
      rfl

theorem scanNum_stop (rest : List Char) (h : restStops rest) (isd : Bool) :
    scanNum isd rest = ([], isd, rest) := by
  rcases h with h | h
  · subst h
    rfl
  · rcases rest with _ | ⟨c, cs⟩
    · rfl
    · simp only [List.head?_cons, Option.some.injEq] at h
      subst h
      simp [scanNum, show isDigitC ' ' = false from rfl,
        show (' ' : Char) ≠ '.' from by decide]

theorem scanIdent_append (t rest : List Char) (h : t.all isIdentChar = true)
    (hr : restStops rest) : scanIdent (t ++ rest) = (t, rest) := by
  induction t with
  | nil => simpa using scanIdent_stop rest hr
  | cons c cs ih =>
    simp only [List.all_cons, Bool.and_eq_true] at h
    have hc : isAlnumC c ∨ c = '_' := by
      rcases (by simpa [isIdentChar] using h.1 : isAlnumC c = true ∨ c = '_') with h' | h'
      · exact Or.inl h'
      · exact Or.inr h'
    simp [scanIdent, hc, ih h.2]

theorem scanNum_digits_append (a rest : List Char) (ha : a.all isDigitC = true)
    (hr : restStops rest) (isd : Bool) : scanNum isd (a ++ rest) = (a, isd, rest) := by
  induction a with
  | nil => simpa using scanNum_stop rest hr isd
  | cons c cs ih =>
    simp only [List.all_cons, Bool.and_eq_true] at ha
    simp [scanNum, ha.1, ih ha.2]

theorem scanNum_double_append (a b rest : List Char) (ha : a.all isDigitC = true)
    (hb : b.all isDigitC = true) (hbne : b ≠ []) (hr : restStops rest) :
    scanNum false (a ++ '.' :: (b ++ rest)) = (a ++ '.' :: b, true, rest) := by
  induction a with
  | nil =>
    have hnext : headIsDigit (b ++ rest) = true := by
      rcases b with _ | ⟨d, ds⟩
      · exact absurd rfl hbne
      · simp only [List.all_cons, Bool.and_eq_true] at hb
        simpa [headIsDigit] using hb.1
    simp [scanNum, show isDigitC '.' = false from rfl, hnext,
      scanNum_digits_append b rest hb hr true]
  | cons c cs ih =>
    simp only [List.all_cons, Bool.and_eq_true] at ha
    simp [scanNum, ha.1, ih ha.2]

theorem getLast_cons_ne (c : Char) (cs : List Char) (x : Char)
    (h : (c :: cs).getLast? ≠ some x) : cs.getLast? ≠ some x := by
  intro hcon
  apply h
  rcases cs with _ | ⟨e, es⟩
  · simp at hcon
  · simpa [List.getLast?_cons_cons] using hcon

theorem scanStr_closes (rest : List Char) (v : List Char)
    (hq : '"' ∉ v) (hb : v.getLast? ≠ some '\\') (hn : nulChar ∉ v) :
    ∃ w, scanStr (v ++ '"' :: rest) = (w, '"' :: rest) := by
  have H : ∀ n (v : List Char), v.length ≤ n → '"' ∉ v →
      v.getLast? ≠ some '\\' → nulChar ∉ v →
      ∃ w, scanStr (v ++ '"' :: rest) = (w, '"' :: rest) := by
    intro n
    induction n with
    | zero =>
      intro v hlen _ _ _
      have hv : v = [] := List.eq_nil_of_length_eq_zero (Nat.le_zero.mp hlen)
      subst hv
      exact ⟨[], scanStr_stop '"' rest (Or.inl rfl)⟩
    | succ n ih =>
      intro v hlen hq hb hn
      rcases v with _ | ⟨c, cs⟩
      · exact ⟨[], scanStr_stop '"' rest (Or.inl rfl)⟩
      · simp only [List.mem_cons, not_or] at hq hn
        have hc1 : ¬ (c = '"' ∨ c = nulChar) := by
          rintro (h | h) <;> subst h
          · exact hq.1 rfl
          · exact hn.1 rfl
        by_cases hc2 : c = '\\'
        · subst hc2
          rcases cs with _ | ⟨d, ds⟩
          · exact absurd (show (['\\'] : List Char).getLast? = some '\\' from rfl) hb
          · obtain ⟨w, hw⟩ := ih ds (by simp only [List.length_cons] at hlen ⊢; omega)
              (by
                have := hq.2
                simp only [List.mem_cons, not_or] at this
                exact this.2)
              (getLast_cons_ne d ds '\\' (getLast_cons_ne '\\' (d :: ds) '\\' hb))
              (by
                have := hn.2
                simp only [List.mem_cons, not_or] at this
                exact this.2)
            refine ⟨(if d = 'n' then '\n' else if d = 't' then '\t'
              else if d = '"' then '"' else if d = '\\' then '\\' else d) :: w, ?_⟩
            rw [show ('\\' :: d :: ds) ++ '"' :: rest = '\\' :: d :: (ds ++ '"' :: rest)
              from rfl]
            rw [scanStr_esc '\\' d (ds ++ '"' :: rest) hc1 rfl, hw]
        · obtain ⟨w, hw⟩ := ih cs (by simp only [List.length_cons] at hlen ⊢; omega)
            (fun hmem => hq.2 hmem)
            (getLast_cons_ne c cs '\\' hb)
            (fun hmem => hn.2 hmem)
          refine ⟨c :: w, ?_⟩
          rw [List.cons_append, scanStr_plain c (cs ++ '"' :: rest) hc1 hc2, hw]
  exact H v.length v (le_refl _) hq hb hn


theorem identStart_facts (c : Char) (h : isAlphaC c = true ∨ c = '_') :
    isSpaceC c = false ∧ c ≠ '/' ∧ c ≠ nulChar := by
  rcases h with h | h
  · simp only [isAlphaC, decide_eq_true_eq] at h
    refine ⟨?_, ?_, ?_⟩
    · simp only [isSpaceC, decide_eq_false_iff_not]
      omega
    · intro hc
      subst hc
      revert h
      decide
    · intro hc
      subst hc
      revert h
      decide
  · subst h
    decide

theorem digit_facts (c : Char) (h : isDigitC c = true) :
    isSpaceC c = false ∧ ¬ (isAlphaC c = true ∨ c = '_') ∧ c ≠ '/' ∧ c ≠ nulChar := by
  simp only [isDigitC, decide_eq_true_eq] at h
  refine ⟨?_, ?_, ?_, ?_⟩
  · simp only [isSpaceC, decide_eq_false_iff_not]
    omega
  · rintro (ha | ha)
    · simp only [isAlphaC, decide_eq_true_eq] at ha
      omega
    · subst ha
      revert h
      decide
  · intro hc
    subst hc
    revert h
    decide
  · intro hc
    subst hc
    revert h
    decide

theorem skipWS_noop (c : Char) (cs : List Char) (h1 : isSpaceC c = false)
    (h2 : ¬ (c = '/' ∧ cs.head? = some '/')) :
    skip_whitespace_and_comments (c :: cs) = c :: cs := by
  simp [skip_whitespace_and_comments, skipWSAux, h1, h2]

theorem relex_ident_like (t rest : List Char) (h1 : headIsIdentStart t = true)
    (h2 : t.all isIdentChar = true) (hr : restStops rest) :
    get_next_token (t ++ rest) = (make_identifier_or_keyword t, rest) := by
  rcases t with _ | ⟨c, cs⟩
  · simp [headIsIdentStart] at h1
  · have hstart : isAlphaC c = true ∨ c = '_' := by
      simpa [headIsIdentStart] using h1
    obtain ⟨hsp, hsl, hnul⟩ := identStart_facts c hstart
    have hskip : skip_whitespace_and_comments (c :: (cs ++ rest)) = c :: (cs ++ rest) :=
      skipWS_noop c (cs ++ rest) hsp (fun hc => hsl hc.1)
    rw [List.cons_append]
    simp only [get_next_token, hskip, if_neg hnul, if_pos hstart]
    rw [show (c :: (cs ++ rest)) = (c :: cs) ++ rest from rfl,
      scanIdent_append (c :: cs) rest h2 hr]


theorem relex_integer (a rest : List Char) (ha : a.all isDigitC = true) (hne : a ≠ [])
    (hr : restStops rest) :
    (get_next_token (a ++ rest)).1.type = TokenType.INTEGER_LITERAL ∧
    (get_next_token (a ++ rest)).2 = rest := by
  rcases a with _ | ⟨c, cs⟩
  · exact absurd rfl hne
  · simp only [List.all_cons, Bool.and_eq_true] at ha
    obtain ⟨hsp, hnab, hsl, hnul⟩ := digit_facts c ha.1
    have hskip : skip_whitespace_and_comments (c :: (cs ++ rest)) = c :: (cs ++ rest) :=
      skipWS_noop c (cs ++ rest) hsp (fun hc => hsl hc.1)
    have hm : scanNum false ((c :: cs) ++ rest) = (c :: cs, false, rest) :=
      scanNum_digits_append (c :: cs) rest (by simp [ha.1, ha.2]) hr false
    rw [List.cons_append]
    simp only [get_next_token, hskip, if_neg hnul, if_neg hnab,
      if_pos (Or.inl ha.1 : isDigitC c = true ∨ (c = '.' ∧ headIsDigit (cs ++ rest) = true))]
    rw [show (c :: (cs ++ rest)) = (c :: cs) ++ rest from rfl]
    unfold make_number
    rw [hm]
    have hff : ¬ (false = true) := by simp
    constructor
    · simp only [if_neg hff]
      split
      · rfl
      · split <;> rfl
    · simp only [if_neg hff]
      split
      · rfl
      · split <;> rfl


theorem relex_double (a b rest : List Char) (ha : a.all isDigitC = true)
    (hb : b.all isDigitC = true) (hbne : b ≠ []) (hr : restStops rest) :
    (get_next_token ((a ++ '.' :: b) ++ rest)).1.type = TokenType.DOUBLE_LITERAL ∧
    (get_next_token ((a ++ '.' :: b) ++ rest)).2 = rest := by
  have hm : scanNum false (a ++ '.' :: (b ++ rest)) = (a ++ '.' :: b, true, rest) :=
    scanNum_double_append a b rest ha hb hbne hr
  rw [show (a ++ '.' :: b) ++ rest = a ++ '.' :: (b ++ rest) by simp]
  rcases a with _ | ⟨c, cs⟩
  · have hnext : headIsDigit (b ++ rest) = true := by
      rcases b with _ | ⟨d, ds⟩
      · exact absurd rfl hbne
      · simp only [List.all_cons, Bool.and_eq_true] at hb
        simpa [headIsDigit] using hb.1
    have hskip : skip_whitespace_and_comments ('.' :: (b ++ rest)) = '.' :: (b ++ rest) :=
      skipWS_noop '.' (b ++ rest) (by decide) (fun hc => absurd hc.1 (by decide))
    simp only [List.nil_append] at hm ⊢
    simp only [get_next_token, hskip,
      if_neg (show ('.' : Char) ≠ nulChar from by decide),
      if_neg (show ¬ (isAlphaC '.' = true ∨ ('.' : Char) = '_') from by decide),
      if_pos (Or.inr ⟨rfl, hnext⟩ :
        isDigitC '.' = true ∨ (('.' : Char) = '.' ∧ headIsDigit (b ++ rest) = true))]
    unfold make_number
    rw [hm]
    rw [if_pos (Or.inr ⟨trivial, hnext⟩ :
      isDigitC '.' = true ∨ (True ∧ headIsDigit (b ++ rest) = true))]
    exact ⟨rfl, rfl⟩
  · simp only [List.all_cons, Bool.and_eq_true] at ha
    obtain ⟨hsp, hnab, hsl, hnul⟩ := digit_facts c ha.1
    have hskip : skip_whitespace_and_comments (c :: (cs ++ '.' :: (b ++ rest))) =
        c :: (cs ++ '.' :: (b ++ rest)) :=
      skipWS_noop c _ hsp (fun hc => hsl hc.1)
    simp only [List.cons_append, get_next_token, hskip, if_neg hnul, if_neg hnab,
      if_pos (Or.inl ha.1 :
        isDigitC c = true ∨ (c = '.' ∧ headIsDigit (cs ++ '.' :: (b ++ rest)) = true))]
    unfold make_number
    rw [show c :: (cs ++ '.' :: (b ++ rest)) = (c :: cs) ++ '.' :: (b ++ rest) from rfl, hm]
    exact ⟨rfl, rfl⟩

theorem relex_string (v rest : List Char)
    (hq : '"' ∉ v) (hb : v.getLast? ≠ some '\\') (hn : nulChar ∉ v) :
    (get_next_token (('"' :: (v ++ ['"'])) ++ rest)).1.type = TokenType.STRING_LITERAL ∧
    (get_next_token (('"' :: (v ++ ['"'])) ++ rest)).2 = rest := by
  have hassoc : ('"' :: (v ++ ['"'])) ++ rest = '"' :: (v ++ '"' :: rest) := by
    simp
  rw [hassoc]
  have hskip : skip_whitespace_and_comments ('"' :: (v ++ '"' :: rest)) =
      '"' :: (v ++ '"' :: rest) :=
    skipWS_noop '"' _ (by decide) (fun hc => absurd hc.1 (by decide))
  obtain ⟨w, hw⟩ := scanStr_closes rest v hq hb hn
  simp only [get_next_token, hskip,
    if_neg (show ('"' : Char) ≠ nulChar from by decide),
    if_neg (show ¬ (isAlphaC '"' = true ∨ ('"' : Char) = '_') from by decide),
    if_neg (show ¬ (isDigitC '"' = true ∨ (('"' : Char) = '.' ∧
        headIsDigit (v ++ '"' :: rest) = true)) from by
      rintro (h | h)
      · revert h
        decide
      · exact absurd h.1 (by decide)),
    if_pos (rfl : ('"' : Char) = '"')]
  simp only [make_string_literal, List.tail_cons, hw, List.head?_cons, if_pos rfl,
    Option.some.injEq]
  exact ⟨rfl, rfl⟩

theorem isDoubleText_spec (l : List Char) (h : isDoubleText l = true) :
    ∃ a b, l = a ++ '.' :: b ∧ a.all isDigitC = true ∧ b ≠ [] ∧ b.all isDigitC = true := by
  induction l with
  | nil => exact absurd h (by decide)
  | cons c cs ih =>
    by_cases hc : isDigitC c = true
    · have hcs : isDoubleText cs = true := by
        unfold isDoubleText at h ⊢
        rw [List.takeWhile_cons_of_pos hc, List.length_cons, List.drop_succ_cons] at h
        exact h
      obtain ⟨a, b, hl, ha, hbne, hb⟩ := ih hcs
      exact ⟨c :: a, b, by rw [hl]; rfl, by simp [ha, hc], hbne, hb⟩
    · unfold isDoubleText at h
      rw [List.takeWhile_cons_of_neg (by simpa using hc), List.length_nil,
        List.drop_zero] at h
      simp only [decide_eq_true_eq] at h
      obtain ⟨h1, h2, h3⟩ := h
      exact ⟨[], cs, by rw [List.nil_append, h1], rfl, h2, h3⟩

set_option maxHeartbeats 1600000 in
theorem keywordLookup_shape (t : List Char) (k : TokenType)
    (hk : keywordLookup t = some k) :
    headIsIdentStart t = true ∧ t.all isIdentChar = true := by
  unfold keywordLookup at hk
  repeat' split at hk
  all_goals first
    | (rename_i h; subst h; exact ⟨by decide, by decide⟩)
    | cases hk

theorem make_identifier_or_keyword_type (t : List Char) (k : TokenType)
    (hk : keywordLookup t = some k) : (make_identifier_or_keyword t).type = k := by
  unfold make_identifier_or_keyword
  rw [hk]
  split
  · rename_i k2 heq
    injection heq with h
    subst h
    split
    · rfl
    · split
      · rfl
      · rfl
  · rename_i heq
    exact Option.noConfusion heq


theorem relex_token (t : Token) (rest : List Char) (hok : tokenTextOK t = true)
    (hsv : stringValueOK t = true) (hnu : t.type ≠ TokenType.UNKNOWN)
    (hne : t.type ≠ TokenType.END_OF_FILE) (hr : restStops rest) :
    (get_next_token (t.text ++ rest)).1.type = t.type ∧
    (get_next_token (t.text ++ rest)).2 = rest := by
  obtain ⟨ty, tx, tv⟩ := t
  show (get_next_token (tx ++ rest)).1.type = ty ∧ (get_next_token (tx ++ rest)).2 = rest
  cases ty
  case END_OF_FILE => exact absurd rfl hne
  case UNKNOWN => exact absurd rfl hnu
  case IDENTIFIER =>
    simp only [tokenTextOK, Bool.and_eq_true, decide_eq_true_eq] at hok
    obtain ⟨h1, h2, h3⟩ := hok
    rw [relex_ident_like tx rest h1 h2 hr]
    refine ⟨?_, rfl⟩
    unfold make_identifier_or_keyword
    rw [h3]
  case INTEGER_LITERAL =>
    simp only [tokenTextOK, decide_eq_true_eq] at hok
    exact relex_integer tx rest hok.2 hok.1 hr
  case DOUBLE_LITERAL =>
    simp only [tokenTextOK] at hok
    obtain ⟨a, b, htx, ha2, hbne, hb2⟩ := isDoubleText_spec tx hok
    subst htx
    exact relex_double a b rest ha2 hb2 hbne hr
  case STRING_LITERAL =>
    rcases tv with _ | n | n | r | v | b
    · exact absurd hok (by simp [tokenTextOK])
    · exact absurd hok (by simp [tokenTextOK])
    · exact absurd hok (by simp [tokenTextOK])
    · exact absurd hok (by simp [tokenTextOK])
    · simp only [tokenTextOK, decide_eq_true_eq] at hok
      simp only [stringValueOK, decide_eq_true_eq] at hsv
      subst hok
      exact relex_string v rest (by simpa using hsv.1) hsv.2.1 (by simpa using hsv.2.2)
    · exact absurd hok (by simp [tokenTextOK])
  case KEYWORD_NUMBER =>
    simp only [tokenTextOK, decide_eq_true_eq] at hok
    obtain ⟨hh, ha2⟩ := keywordLookup_shape tx _ hok
    rw [relex_ident_like tx rest hh ha2 hr]
    exact ⟨make_identifier_or_keyword_type tx _ hok, rfl⟩
  case KEYWORD_LNUMBER =>
    simp only [tokenTextOK, decide_eq_true_eq] at hok
    obtain ⟨hh, ha2⟩ := keywordLookup_shape tx _ hok
    rw [relex_ident_like tx rest hh ha2 hr]
    exact ⟨make_identifier_or_keyword_type tx _ hok, rfl⟩
  case KEYWORD_TEXT =>
    simp only [tokenTextOK, decide_eq_true_eq] at hok
    obtain ⟨hh, ha2⟩ := keywordLookup_shape tx _ hok
    rw [relex_ident_like tx rest hh ha2 hr]
    exact ⟨make_identifier_or_keyword_type tx _ hok, rfl⟩
  case KEYWORD_LOGIC =>
    simp only [tokenTextOK, decide_eq_true_eq] at hok
    obtain ⟨hh, ha2⟩ := keywordLookup_shape tx _ hok
    rw [relex_ident_like tx rest hh ha2 hr]
    exact ⟨make_identifier_or_keyword_type tx _ hok, rfl⟩
  case KEYWORD_RIEL =>
    simp only [tokenTextOK, decide_eq_true_eq] at hok
    obtain ⟨hh, ha2⟩ := keywordLookup_shape tx _ hok
    rw [relex_ident_like tx rest hh ha2 hr]
    exact ⟨make_identifier_or_keyword_type tx _ hok, rfl⟩
  case KEYWORD_SAYS =>
    simp only [tokenTextOK, decide_eq_true_eq] at hok
    obtain ⟨hh, ha2⟩ := keywordLookup_shape tx _ hok
    rw [relex_ident_like tx rest hh ha2 hr]
    exact ⟨make_identifier_or_keyword_type tx _ hok, rfl⟩
  case KEYWORD_TRUE =>
    simp only [tokenTextOK, decide_eq_true_eq] at hok
    obtain ⟨hh, ha2⟩ := keywordLookup_shape tx _ hok
    rw [relex_ident_like tx rest hh ha2 hr]
    exact ⟨make_identifier_or_keyword_type tx _ hok, rfl⟩
  case KEYWORD_FALSE =>
    simp only [tokenTextOK, decide_eq_true_eq] at hok
    obtain ⟨hh, ha2⟩ := keywordLookup_shape tx _ hok
    rw [relex_ident_like tx rest hh ha2 hr]
    exact ⟨make_identifier_or_keyword_type tx _ hok, rfl⟩
  case KEYWORD_USE =>
    simp only [tokenTextOK, decide_eq_true_eq] at hok
    obtain ⟨hh, ha2⟩ := keywordLookup_shape tx _ hok
    rw [relex_ident_like tx rest hh ha2 hr]
    exact ⟨make_identifier_or_keyword_type tx _ hok, rfl⟩
  case KEYWORD_IF =>
    simp only [tokenTextOK, decide_eq_true_eq] at hok
    obtain ⟨hh, ha2⟩ := keywordLookup_shape tx _ hok
    rw [relex_ident_like tx rest hh ha2 hr]
    exact ⟨make_identifier_or_keyword_type tx _ hok, rfl⟩
  case KEYWORD_ELSE =>
    simp only [tokenTextOK, decide_eq_true_eq] at hok
    obtain ⟨hh, ha2⟩ := keywordLookup_shape tx _ hok
    rw [relex_ident_like tx rest hh ha2 hr]
    exact ⟨make_identifier_or_keyword_type tx _ hok, rfl⟩
  case COLON_EQUALS =>
    simp only [tokenTextOK, decide_eq_true_eq] at hok
    subst hok
    exact ⟨rfl, rfl⟩
  case QUESTION_EQUALS =>
    simp only [tokenTextOK, decide_eq_true_eq] at hok
    subst hok
    exact ⟨rfl, rfl⟩
  case PLUS =>
    simp only [tokenTextOK, decide_eq_true_eq] at hok
    subst hok
    exact ⟨rfl, rfl⟩
  case SEMICOLON =>
    simp only [tokenTextOK, decide_eq_true_eq] at hok
    subst hok
    exact ⟨rfl, rfl⟩
  case LPAREN =>
    simp only [tokenTextOK, decide_eq_true_eq] at hok
    subst hok
    exact ⟨rfl, rfl⟩
  case RPAREN =>
    simp only [tokenTextOK, decide_eq_true_eq] at hok
    subst hok
    exact ⟨rfl, rfl⟩
  case LBRACE =>
    simp only [tokenTextOK, decide_eq_true_eq] at hok
    subst hok
    exact ⟨rfl, rfl⟩
  case RBRACE =>
    simp only [tokenTextOK, decide_eq_true_eq] at hok
    subst hok
    exact ⟨rfl, rfl⟩
  case LT =>
    simp only [tokenTextOK, decide_eq_true_eq] at hok
    subst hok
    exact ⟨rfl, rfl⟩
  case GT =>
    simp only [tokenTextOK, decide_eq_true_eq] at hok
    subst hok
    exact ⟨rfl, rfl⟩
  case DOT =>
    simp only [tokenTextOK, decide_eq_true_eq] at hok
    subst hok
    rcases hr with h | h
    · subst h
      exact ⟨rfl, rfl⟩
    · rcases rest with _ | ⟨c, cs⟩
      · exact ⟨rfl, rfl⟩
      · simp only [List.head?_cons, Option.some.injEq] at h
        subst h
        exact ⟨rfl, rfl⟩
  case SLASH =>
    simp only [tokenTextOK, decide_eq_true_eq] at hok
    subst hok
    rcases hr with h | h
    · subst h
      exact ⟨rfl, rfl⟩
    · rcases rest with _ | ⟨c, cs⟩
      · exact ⟨rfl, rfl⟩
      · simp only [List.head?_cons, Option.some.injEq] at h
        subst h
        exact ⟨rfl, rfl⟩


theorem joinedTexts_single (t : Token) : joinedTexts [t] = t.text := by
  simp [joinedTexts, List.intercalate]

theorem joinedTexts_cons2 (t u : Token) (ts : List Token) :
    joinedTexts (t :: u :: ts) = t.text ++ ' ' :: joinedTexts (u :: ts) := by
  simp [joinedTexts, List.intercalate, List.intersperse]

theorem get_next_token_space (s : List Char) :
    get_next_token (' ' :: s) = get_next_token s := rfl

theorem tokenizeLoop_space (f : Nat) (s : List Char) :
    tokenizeLoop (f + 1) (' ' :: s) = tokenizeLoop (f + 1) s := by
  simp only [tokenizeLoop, get_next_token_space]

theorem relex_chain : ∀ (ts : List Token) (extra : List Char) (f : Nat),
    (extra = [] ∨ extra = [' ']) →
    (∀ t ∈ ts, tokenTextOK t = true ∧ stringValueOK t = true ∧
      t.type ≠ TokenType.UNKNOWN ∧ t.type ≠ TokenType.END_OF_FILE) →
    ts.length < f →
    (tokenizeLoop f (joinedTexts ts ++ extra)).map Token.type =
      ts.map Token.type ++ [TokenType.END_OF_FILE] := by
  intro ts
  induction ts with
  | nil =>
    intro extra f hex h hf
    rcases f with _ | f
    · omega
    rcases hex with he | he <;> subst he
    · rw [show joinedTexts ([] : List Token) ++ [] = [] from rfl]
      rw [tokenizeLoop_eof f [] [] get_next_token_nil]
      rfl
    · rw [show joinedTexts ([] : List Token) ++ [' '] = [' '] from rfl]
      rw [tokenizeLoop_eof f [' '] [] ((get_next_token_space []).trans get_next_token_nil)]
      rfl
  | cons t ts ih =>
    intro extra f hex h hf
    obtain ⟨hok, hsv, hnu, hne⟩ := h t (List.mem_cons_self t ts)
    rcases f with _ | f
    · simp only [List.length_cons] at hf
      omega
    rcases ts with _ | ⟨u, us⟩
    · have hrs : restStops extra := by
        rcases hex with he | he <;> subst he
        · exact Or.inl rfl
        · exact Or.inr rfl
      have hrel := relex_token t extra hok hsv hnu hne hrs
      rw [show joinedTexts [t] ++ extra = t.text ++ extra by rw [joinedTexts_single]]
      have hstep := tokenizeLoop_step f (t.text ++ extra)
        (get_next_token (t.text ++ extra)).1 (get_next_token (t.text ++ extra)).2
        rfl (by rw [hrel.1]; exact hne) (by rw [hrel.1]; exact hnu)
      rw [hstep, hrel.2]
      rcases f with _ | f2
      · simp only [List.length_cons, List.length_nil] at hf
        omega
      have hend : tokenizeLoop (f2 + 1) extra = [eofToken] := by
        rcases hex with he | he <;> subst he
        · exact tokenizeLoop_eof f2 [] [] get_next_token_nil
        · exact tokenizeLoop_eof f2 [' '] [] ((get_next_token_space []).trans get_next_token_nil)
      rw [hend]
      simp [hrel.1, eofToken]
    · have hJ : joinedTexts (t :: u :: us) ++ extra =
          t.text ++ (' ' :: (joinedTexts (u :: us) ++ extra)) := by
        rw [joinedTexts_cons2]
        simp
      rw [hJ]
      have hrel := relex_token t (' ' :: (joinedTexts (u :: us) ++ extra)) hok hsv hnu hne
        (Or.inr rfl)
      have hstep := tokenizeLoop_step f (t.text ++ (' ' :: (joinedTexts (u :: us) ++ extra)))
        (get_next_token (t.text ++ (' ' :: (joinedTexts (u :: us) ++ extra)))).1
        (get_next_token (t.text ++ (' ' :: (joinedTexts (u :: us) ++ extra)))).2
        rfl (by rw [hrel.1]; exact hne) (by rw [hrel.1]; exact hnu)
      rw [hstep, hrel.2]
      rcases f with _ | f2
      · simp only [List.length_cons] at hf
        omega
      rw [tokenizeLoop_space f2 (joinedTexts (u :: us) ++ extra)]
      simp only [List.map_cons]
      rw [ih extra (f2 + 1) hex (fun v hv => h v (List.mem_cons_of_mem t hv))
        (by simp only [List.length_cons] at hf ⊢; omega)]
      simp [hrel.1]


theorem tokenTextOK_ne_nil (t : Token) (hok : tokenTextOK t = true)
    (hnu : t.type ≠ TokenType.UNKNOWN) (hne : t.type ≠ TokenType.END_OF_FILE) :
    t.text ≠ [] := by
  obtain ⟨ty, tx, tv⟩ := t
  show tx ≠ []
  cases ty
  case END_OF_FILE => exact absurd rfl hne
  case UNKNOWN => exact absurd rfl hnu
  case IDENTIFIER =>
    simp only [tokenTextOK, Bool.and_eq_true, decide_eq_true_eq] at hok
    intro hnil
    have hh := hok.1
    rw [hnil] at hh
    exact absurd hh (by decide)
  case INTEGER_LITERAL =>
    simp only [tokenTextOK, decide_eq_true_eq] at hok
    exact hok.1
  case DOUBLE_LITERAL =>
    simp only [tokenTextOK] at hok
    intro hnil
    rw [hnil] at hok
    exact absurd hok (by decide)
  case STRING_LITERAL =>
    rcases tv with _ | n | n | r | v | b
    · exact absurd hok (by simp [tokenTextOK])
    · exact absurd hok (by simp [tokenTextOK])
    · exact absurd hok (by simp [tokenTextOK])
    · exact absurd hok (by simp [tokenTextOK])
    · simp only [tokenTextOK, decide_eq_true_eq] at hok
      rw [hok]
      simp
    · exact absurd hok (by simp [tokenTextOK])
  case KEYWORD_NUMBER =>
    simp only [tokenTextOK, decide_eq_true_eq] at hok
    intro hnil
    have hh := (keywordLookup_shape tx _ hok).1
    rw [hnil] at hh
    exact absurd hh (by decide)
  case KEYWORD_LNUMBER =>
    simp only [tokenTextOK, decide_eq_true_eq] at hok
    intro hnil
    have hh := (keywordLookup_shape tx _ hok).1
    rw [hnil] at hh
    exact absurd hh (by decide)
  case KEYWORD_TEXT =>
    simp only [tokenTextOK, decide_eq_true_eq] at hok
    intro hnil
    have hh := (keywordLookup_shape tx _ hok).1
    rw [hnil] at hh
    exact absurd hh (by decide)
  case KEYWORD_LOGIC =>
    simp only [tokenTextOK, decide_eq_true_eq] at hok
    intro hnil
    have hh := (keywordLookup_shape tx _ hok).1
    rw [hnil] at hh
    exact absurd hh (by decide)
  case KEYWORD_RIEL =>
    simp only [tokenTextOK, decide_eq_true_eq] at hok
    intro hnil
    have hh := (keywordLookup_shape tx _ hok).1
    rw [hnil] at hh
    exact absurd hh (by decide)
  case KEYWORD_SAYS =>
    simp only [tokenTextOK, decide_eq_true_eq] at hok
    intro hnil
    have hh := (keywordLookup_shape tx _ hok).1
    rw [hnil] at hh
    exact absurd hh (by decide)
  case KEYWORD_TRUE =>
    simp only [tokenTextOK, decide_eq_true_eq] at hok
    intro hnil
    have hh := (keywordLookup_shape tx _ hok).1
    rw [hnil] at hh
    exact absurd hh (by decide)
  case KEYWORD_FALSE =>
    simp only [tokenTextOK, decide_eq_true_eq] at hok
    intro hnil
    have hh := (keywordLookup_shape tx _ hok).1
    rw [hnil] at hh
    exact absurd hh (by decide)
  case KEYWORD_USE =>
    simp only [tokenTextOK, decide_eq_true_eq] at hok
    intro hnil
    have hh := (keywordLookup_shape tx _ hok).1
    rw [hnil] at hh
    exact absurd hh (by decide)
  case KEYWORD_IF =>
    simp only [tokenTextOK, decide_eq_true_eq] at hok
    intro hnil
    have hh := (keywordLookup_shape tx _ hok).1
    rw [hnil] at hh
    exact absurd hh (by decide)
  case KEYWORD_ELSE =>
    simp only [tokenTextOK, decide_eq_true_eq] at hok
    intro hnil
    have hh := (keywordLookup_shape tx _ hok).1
    rw [hnil] at hh
    exact absurd hh (by decide)
  case COLON_EQUALS =>
    simp only [tokenTextOK, decide_eq_true_eq] at hok
    rw [hok]
    simp
  case QUESTION_EQUALS =>
    simp only [tokenTextOK, decide_eq_true_eq] at hok
    rw [hok]
    simp
  case PLUS =>
    simp only [tokenTextOK, decide_eq_true_eq] at hok
    rw [hok]
    simp
  case SEMICOLON =>
    simp only [tokenTextOK, decide_eq_true_eq] at hok
    rw [hok]
    simp
  case LPAREN =>
    simp only [tokenTextOK, decide_eq_true_eq] at hok
    rw [hok]
    simp
  case RPAREN =>
    simp only [tokenTextOK, decide_eq_true_eq] at hok
    rw [hok]
    simp
  case LBRACE =>
    simp only [tokenTextOK, decide_eq_true_eq] at hok
    rw [hok]
    simp
  case RBRACE =>
    simp only [tokenTextOK, decide_eq_true_eq] at hok
    rw [hok]
    simp
  case LT =>
    simp only [tokenTextOK, decide_eq_true_eq] at hok
    rw [hok]
    simp
  case GT =>
    simp only [tokenTextOK, decide_eq_true_eq] at hok
    rw [hok]
    simp
  case DOT =>
    simp only [tokenTextOK, decide_eq_true_eq] at hok
    rw [hok]
    simp
  case SLASH =>
    simp only [tokenTextOK, decide_eq_true_eq] at hok
    rw [hok]
    simp

theorem joinedTexts_length : ∀ (ts : List Token), (∀ t ∈ ts, t.text ≠ []) →
    ts.length ≤ (joinedTexts ts).length := by
  intro ts
  induction ts with
  | nil => intro _; simp [joinedTexts, List.intercalate]
  | cons t ts ih =>
    intro h
    have h1 : 1 ≤ t.text.length := by
      rcases ht : t.text with _ | ⟨c, cs⟩
      · exact absurd ht (h t (List.mem_cons_self t ts))
      · simp
    rcases ts with _ | ⟨u, us⟩
    · rw [joinedTexts_single]
      simpa using h1
    · rw [joinedTexts_cons2]
      have h2 := ih (fun v hv => h v (List.mem_cons_of_mem t hv))
      simp only [List.length_append, List.length_cons] at h2 ⊢
      omega

theorem joinedTexts_append_eof : ∀ (ts : List Token), ts ≠ [] →
    joinedTexts (ts ++ [eofToken]) = joinedTexts ts ++ [' '] := by
  intro ts
  induction ts with
  | nil => intro h; exact absurd rfl h
  | cons t ts ih =>
    intro _
    rcases ts with _ | ⟨u, us⟩
    · rw [show ([t] ++ [eofToken]) = t :: [eofToken] from rfl, joinedTexts_cons2,
        joinedTexts_single, joinedTexts_single]
      rfl
    · rw [show ((t :: u :: us) ++ [eofToken]) = t :: (u :: (us ++ [eofToken])) from rfl]
      rw [joinedTexts_cons2, joinedTexts_cons2]
      rw [show (u :: (us ++ [eofToken])) = (u :: us) ++ [eofToken] from rfl]
      rw [ih (by simp)]
      simp


/-- C5: counterexample to the round-trip claim.  The 6-character source
`"a\"b"` is accepted by the lexer (its token stream is STRING_LITERAL,
END_OF_FILE with no UNKNOWN token), but the string token's text
reproduces the escaped quote unescaped, so re-tokenizing the texts
joined with single spaces yields STRING_LITERAL, IDENTIFIER,
STRING_LITERAL, END_OF_FILE - a different type sequence. -/
theorem C5_counterexample_escaped_quote_breaks_roundtrip :
    (∀ t ∈ tokenize ("\"a\\\"b\"".toList), t.type ≠ TokenType.UNKNOWN) ∧
    (tokenize (joinedTexts (tokenize ("\"a\\\"b\"".toList)))).map Token.type ≠
      (tokenize ("\"a\\\"b\"".toList)).map Token.type := by
  decide

/-- C5 (amended): for every source text accepted by the lexer (no UNKNOWN
token) in which no string literal's value contains a double quote, a
trailing backslash, or a NUL character, re-tokenizing the concatenation
of the returned tokens' texts joined with single spaces yields the same
token-type sequence. -/
theorem C5_amended_spaced_relex_preserves_token_types (s : List Char)
    (hnu : ∀ t ∈ tokenize s, t.type ≠ TokenType.UNKNOWN)
    (hsv : ∀ t ∈ tokenize s, stringValueOK t = true) :
    (tokenize (joinedTexts (tokenize s))).map Token.type = (tokenize s).map Token.type := by
  obtain ⟨real, heq, hreal⟩ := tokenize_shape s
  have hprops : ∀ t ∈ real, tokenTextOK t = true ∧ stringValueOK t = true ∧
      t.type ≠ TokenType.UNKNOWN ∧ t.type ≠ TokenType.END_OF_FILE := by
    intro t ht
    have hmem : t ∈ tokenize s := by
      rw [heq]
      exact List.mem_append_left _ ht
    exact ⟨(hreal t ht).2, hsv t hmem, hnu t hmem, (hreal t ht).1⟩
  rw [heq]
  rcases real with _ | ⟨r0, rs⟩
  · rfl
  · have htexts : ∀ t ∈ r0 :: rs, t.text ≠ [] := fun t ht =>
      tokenTextOK_ne_nil t (hprops t ht).1 (hprops t ht).2.2.1 (hprops t ht).2.2.2
    have hlen := joinedTexts_length (r0 :: rs) htexts
    rw [joinedTexts_append_eof (r0 :: rs) (by simp)]
    show (tokenizeLoop ((joinedTexts (r0 :: rs) ++ [' ']).length + 1)
      (joinedTexts (r0 :: rs) ++ [' '])).map Token.type = _
    rw [relex_chain (r0 :: rs) [' '] ((joinedTexts (r0 :: rs) ++ [' ']).length + 1)
      (Or.inr rfl) hprops
      (by simp only [List.length_append, List.length_cons, List.length_nil] at hlen ⊢; omega)]
    simp [eofToken]

/-- Witness for the amended C5 theorem on the concrete accepted source
`text t := "hi" + 1; says t;`. -/
theorem C5_amended_spaced_relex_preserves_token_types_witness :
    (∀ t ∈ tokenize ("text t := \"hi\" + 1; says t;".toList), t.type ≠ TokenType.UNKNOWN) ∧
    (∀ t ∈ tokenize ("text t := \"hi\" + 1; says t;".toList), stringValueOK t = true) ∧
    (tokenize (joinedTexts (tokenize ("text t := \"hi\" + 1; says t;".toList)))).map Token.type =
      (tokenize ("text t := \"hi\" + 1; says t;".toList)).map Token.type :=
  ⟨by decide, by decide,
    C5_amended_spaced_relex_preserves_token_types ("text t := \"hi\" + 1; says t;".toList)
      (by decide) (by decide)⟩

end HumanScript
